import Mathlib

/-!
Verification development for the PTTracker extension (Kuma3D/PTTracker).

The definitions below are a shallow embedding of the tag-tracking core in
src/unnamed/part_002 (the full variant with character tracking; the time
normalizer is identical to src/unnamed/part_000 lines 77-91).  JavaScript
strings are modelled as `List Char`; the regular expressions of the source
are small and are embedded as deterministic scanners proved equivalent to
the backtracking semantics where the regex engine could backtrack
(comments at the relevant definitions explain each such argument).
Stateful code (settings object, per-message cache, header output) is
modelled by explicit state passing.
-/

namespace PTTracker

/-- Character class of the JavaScript regex `\s` and of
`String.prototype.trim`: whitespace and line terminators
(ECMA-262 WhiteSpace and LineTerminator sets). -/
def isJsSpace (c : Char) : Bool :=
  c = ' ' || c = '\t' || c = '\n' || c = '\r' || c = '\x0b' || c = '\x0c' ||
  c = ' ' || c = ' ' || (' ' ≤ c && c ≤ ' ') ||
  c = ' ' || c = ' ' || c = ' ' || c = ' ' ||
  c = '　' || c = '﻿'

/-- JavaScript line terminators: the characters the regex `.` never
matches. -/
def isLineTerm (c : Char) : Bool :=
  c = '\n' || c = '\r' || c = ' ' || c = ' '

/-- JavaScript `String.prototype.trim`: strip `isJsSpace` characters from
both ends. -/
def jsTrim (s : List Char) : List Char :=
  ((s.dropWhile isJsSpace).reverse.dropWhile isJsSpace).reverse

/-- Index of the first character satisfying `p` (JavaScript
`String.prototype.indexOf` for a single character, and the position of the
first regex-relevant character during scanning). -/
def firstIdx (p : Char → Bool) : List Char → Option Nat
  | [] => none
  | c :: rest => if p c then some 0 else (firstIdx p rest).map (· + 1)

/-- Value of a string of decimal digits (the core of `parseInt` on an
all-digit input). -/
def digitsToNat (ds : List Char) : Nat :=
  ds.foldl (fun a c => 10 * a + (c.toNat - 48)) 0

/-- Digit-rendering worker: structural recursion on a fuel bound so that
the definition reduces inside the kernel (the fuel never runs out when it
starts at least at `n + 1`). -/
def natToStrAux (fuel n : Nat) : List Char :=
  match fuel with
  | 0 => []
  | fuel + 1 =>
    if n < 10 then [Nat.digitChar n]
    else natToStrAux fuel (n / 10) ++ [Nat.digitChar (n % 10)]

/-- Decimal rendering of a natural number, as JavaScript number-to-string
conversion produces for a non-negative integer. -/
def natToStr (n : Nat) : List Char :=
  natToStrAux (n + 1) n

/-- Decimal rendering of an integer (JavaScript `String(n)` for an
integral number). -/
def intToStr (n : Int) : List Char :=
  if n < 0 then '-' :: natToStr (-n).toNat else natToStr n.toNat

/-- Leading decimal-digit run of a string, or `none` when the string does
not start with a digit (the digit-consuming phase of `parseInt`). -/
def parseLeadingDigits (s : List Char) : Option Nat :=
  let ds := s.takeWhile Char.isDigit
  if ds = [] then none else some (digitsToNat ds)

/-- JavaScript `parseInt(str, 10)`: skip leading whitespace, read an
optional sign, then the longest leading digit run; `none` models `NaN`.
(JavaScript numbers lose precision beyond 2^53; the tracker's values stay
far below that, so integers are modelled exactly.) -/
def jsParseInt (s : List Char) : Option Int :=
  let t := s.dropWhile isJsSpace
  match t with
  | '-' :: rest => (parseLeadingDigits rest).map (fun n => -(n : Int))
  | '+' :: rest => (parseLeadingDigits rest).map (fun n => (n : Int))
  | _ => (parseLeadingDigits t).map (fun n => (n : Int))

/-- JavaScript `a || b` for two strings: the empty string is falsy. -/
def jsOr (a b : List Char) : List Char :=
  if a = [] then b else a

/-- JavaScript `a || b` where `a` is a string-or-null value: both `null`
and the empty string are falsy. -/
def jsOrOpt (a : Option (List Char)) (b : List Char) : List Char :=
  match a with
  | some v => if v = [] then b else v
  | none => b

/-- Test of the regex `/AM|PM/i` in `convertTo12Hour`: does the string
contain `am` or `pm` as a substring, case-insensitively? -/
def containsAmPm : List Char → Bool
  | c1 :: c2 :: restC =>
    ((c1.toLower = 'a' || c1.toLower = 'p') && c2.toLower = 'm') ||
      containsAmPm (c2 :: restC)
  | _ => false

/-- Tail of the anchored time regex `(\s*;.*)?$` of `convertTo12Hour`,
applied to everything after the minutes (and optional seconds).  Matching
is deterministic even though the regex engine may backtrack: `\s*` must
stop exactly at the maximal whitespace run because `;` is not whitespace,
and the greedy `.*` reaches `$` exactly when no line terminator remains.
Returns the text captured by the group (`[]` when the group did not
participate), which always equals the whole remaining input. -/
def checkEnd (r : List Char) : Option (List Char) :=
  if r = [] then some []
  else
    match r.dropWhile isJsSpace with
    | ';' :: tail =>
      if tail.all (fun c => !isLineTerm c) then
        some (r.takeWhile isJsSpace ++ ';' :: tail)
      else none
    | _ => none

/-- Optional seconds group `(?::\d{2})?` followed by `checkEnd`.  The
greedy consumption of `:dd` is exact: when `:dd` follows, the
non-consuming alternative leaves a `:` where `checkEnd` demands `;`,
whitespace or end of input, so it can never succeed. -/
def afterMinutes (rest : List Char) : Option (List Char) :=
  match rest with
  | ':' :: s1 :: s2 :: r =>
    if s1.isDigit && s2.isDigit then checkEnd r else checkEnd rest
  | _ => checkEnd rest

/-- Text of an optional seconds group: `:ss` when present, nothing
otherwise (used to state the shape of inputs the time regex accepts). -/
def secsPart : Option (Char × Char) → List Char
  | some p => ':' :: p.1 :: p.2 :: []
  | none => []

/-- The minutes part `:(\d{2})` of the time regex, then `afterMinutes`.
Returns hour digits, the two minute characters, and the captured
suffix. -/
def matchMins (ds : List Char) (rest : List Char) :
    Option (List Char × List Char × List Char) :=
  match rest with
  | m1 :: m2 :: r =>
    if m1.isDigit && m2.isDigit then
      match afterMinutes r with
      | some cap => some (ds, [m1, m2], cap)
      | none => none
    else none
  | _ => none

/-- The anchored regex `^(\d{1,2}):(\d{2})(?::\d{2})?(\s*;.*)?$` of
`convertTo12Hour`.  The greedy `\d{1,2}` is deterministic: the literal `:`
must follow the hour digits, and a digit is never `:`, so exactly one of
the one-digit and two-digit alternatives can continue. -/
def matchTimeRegex (s : List Char) : Option (List Char × List Char × List Char) :=
  match s with
  | d1 :: ':' :: rest => if d1.isDigit then matchMins [d1] rest else none
  | d1 :: d2 :: ':' :: rest =>
    if d1.isDigit && d2.isDigit then matchMins [d1, d2] rest else none
  | _ => none

/-- The time normalizer `convertTo12Hour` (part_000 lines 77-91, identical
in part_002 lines 49-61).  `parseInt(match[1], 10)` on the all-digit hour
capture is `digitsToNat`; the `hours < 0` test of the source can never
fire on a digit capture and is dropped; `hours % 12 || 12` is `12` when
the remainder is `0`. -/
def convertTo12Hour (s : List Char) : List Char :=
  if s = [] then s
  else if containsAmPm s then s
  else
    match matchTimeRegex s with
    | none => s
    | some (ds, mins, rest) =>
      let hours := digitsToNat ds
      if hours > 23 then s
      else
        let period := if hours ≥ 12 then ['P', 'M'] else ['A', 'M']
        let h12 := if hours % 12 = 0 then 12 else hours % 12
        natToStr h12 ++ ':' :: mins ++ ' ' :: period ++ rest

/-- One participant of a `[char: ...]` tag, as built by `parseTags`:
`{ name: '', outfit: '', state: '', position: '' }` with fields filled
from the pipe-separated segments. -/
structure CharacterEntry where
  name : List Char
  outfit : List Char
  state : List Char
  position : List Char
deriving DecidableEq

/-- The literal regex text `[` + tag + `:` that anchors each bracket-tag
pattern (`\[time:` and so on). -/
def tagPattern (tag : List Char) : List Char :=
  '[' :: tag ++ [':']

/-- Case-insensitive prefix match of a lowercase pattern against the
input, one character at a time (the `/i` flag of the tag regexes;
non-letter pattern characters match only themselves). -/
def ciStarts : List Char → List Char → Bool
  | [], _ => true
  | _ :: _, [] => false
  | p :: ps, c :: cs => (c.toLower = p) && ciStarts ps cs

/-- Body of the bracket-tag regexes after the `[tag:` anchor:
`\s*([^\]]+)\]` with the caller's `.trim()` applied to the capture.
`[^\]]` also matches whitespace and newlines, so the attempt succeeds
exactly when a `]` exists and at least one character precedes it; the
greedy `\s*` backtracks by at most one character (when everything before
`]` is whitespace), which `min` reproduces.  Returns the trimmed capture
and the input after the closing `]`. -/
def matchTagBody (r : List Char) : Option (List Char × List Char) :=
  match firstIdx (fun c => c = ']') r with
  | none => none
  | some k =>
    if k = 0 then none
    else
      some (jsTrim ((r.take k).drop (min ((r.takeWhile isJsSpace).length) (k - 1))),
        r.drop (k + 1))

/-- One attempt of a bracket-tag regex at the current scan position. -/
def tryTagAt (tag : List Char) (s : List Char) : Option (List Char × List Char) :=
  if ciStarts (tagPattern tag) s then matchTagBody (s.drop (tagPattern tag).length)
  else none

/-- The `extract` helper of `parseTags`: first match of
`/\[tag:\s*([^\]]+)\]/i` over the whole text, trimmed, or `null`.  The
regex engine advances the start position by one character after each
failed attempt, which the recursion reproduces. -/
def extractTag (tag : List Char) : List Char → Option (List Char)
  | [] => none
  | c :: rest =>
    match tryTagAt tag (c :: rest) with
    | some (v, _) => some v
    | none => extractTag tag rest

theorem ciStarts_length_le (p s : List Char) (h : ciStarts p s = true) :
    p.length ≤ s.length := by
  induction p generalizing s with
  | nil => simp
  | cons x xs ih =>
    cases s with
    | nil => simp [ciStarts] at h
    | cons c cs =>
      simp only [ciStarts, Bool.and_eq_true] at h
      simpa using ih cs h.2

theorem tryTagAt_rem_lt (tag s v rem : List Char)
    (h : tryTagAt tag s = some (v, rem)) : rem.length < s.length := by
  unfold tryTagAt at h
  split at h
  case isTrue hci =>
    unfold matchTagBody at h
    split at h
    · exact absurd h (by simp)
    case h_2 k hk =>
      split at h
      · exact absurd h (by simp)
      case isFalse hk0 =>
        have hlen := ciStarts_length_le _ _ hci
        have hpat : (tagPattern tag).length = tag.length + 2 := by
          simp [tagPattern]
        simp only [Option.some.injEq, Prod.mk.injEq] at h
        have hrem : rem = (s.drop (tagPattern tag).length).drop (k + 1) := h.2.symm
        subst hrem
        simp only [List.drop_drop, List.length_drop]
        omega
  case isFalse => exact absurd h (by simp)

/-- Worker for the global tag scan, structurally recursive on a fuel
bound so that the definition reduces inside the kernel; the fuel never
runs out when it starts at the input length, because each step consumes
at least one character. -/
def extractAllTagsAux (tag : List Char) (fuel : Nat) (s : List Char) : List (List Char) :=
  match fuel, s with
  | 0, _ => []
  | _ + 1, [] => []
  | fuel + 1, c :: rest =>
    match tryTagAt tag (c :: rest) with
    | some (v, rem) => v :: extractAllTagsAux tag fuel rem
    | none => extractAllTagsAux tag fuel rest

/-- All matches of `/\[tag:\s*([^\]]+)\]/gi` in text order, trimmed (the
`[char: ...]` collection loop of `parseTags`): after a successful match
the scan resumes right after the closing `]`; after a failed attempt it
advances one character. -/
def extractAllTags (tag : List Char) (s : List Char) : List (List Char) :=
  extractAllTagsAux tag s.length s

/-- JavaScript `String.prototype.split` on a single separator character:
every separator splits, empty segments are kept, and the empty string
yields one empty segment. -/
def splitOnChar (sep : Char) : List Char → List (List Char)
  | [] => [[]]
  | c :: rest =>
    match splitOnChar sep rest with
    | [] => [[]]
    | seg :: segs => if c = sep then [] :: seg :: segs else (c :: seg) :: segs

/-- JavaScript `part.indexOf(':')` followed by `slice`: the text before
the first colon and the text after it, or `none` when no colon occurs. -/
def splitFirstColon (part : List Char) : Option (List Char × List Char) :=
  match firstIdx (fun c => c = ':') part with
  | none => none
  | some i => some (part.take i, part.drop (i + 1))

/-- One iteration of the segment loop in the `[char: ...]` parser
(part_002 lines 112-127): a recognized lowercased key updates its field;
a segment without a colon, or with an unrecognized key, becomes the name
when it is the first segment and no name is set yet, and is otherwise
ignored. -/
def updateEntry (e : CharacterEntry) (i : Nat) (part : List Char) : CharacterEntry :=
  match splitFirstColon part with
  | none => if i = 0 ∧ e.name = [] then { e with name := part } else e
  | some (k0, v0) =>
    let k := (jsTrim k0).map Char.toLower
    let v := jsTrim v0
    if k = "name".data then { e with name := v }
    else if k = "outfit".data then { e with outfit := v }
    else if k = "state".data then { e with state := v }
    else if k = "position".data then { e with position := v }
    else if i = 0 ∧ e.name = [] then { e with name := part } else e

/-- The segment loop over all pipe-separated parts, threading the index. -/
def applyParts (e : CharacterEntry) (i : Nat) : List (List Char) → CharacterEntry
  | [] => e
  | p :: ps => applyParts (updateEntry e i p) (i + 1) ps

/-- Parse one `[char: ...]` body (already trimmed by the match loop):
split on `|`, trim each segment, run the segment loop, and discard the
entry when no name was determined. -/
def mkCharEntry (body : List Char) : Option CharacterEntry :=
  let parts := (splitOnChar '|' body).map jsTrim
  let e := applyParts ⟨[], [], [], []⟩ 0 parts
  if e.name = [] then none else some e

/-- Result of `parseTags`: the four scalar tags (string or `null`) and
the ordered character list. -/
structure TagSet where
  time : Option (List Char)
  location : Option (List Char)
  weather : Option (List Char)
  heart : Option (List Char)
  characters : List CharacterEntry
deriving DecidableEq

/-- The tag extractor `parseTags` (part_002 lines 98-138). -/
def parseTags (text : List Char) : TagSet :=
  { time := extractTag "time".data text
    location := extractTag "location".data text
    weather := extractTag "weather".data text
    heart := extractTag "heart".data text
    characters := (extractAllTags "char".data text).filterMap mkCharEntry }

/-- The `{ time: null, location: null, weather: null, heart: null,
characters: [] }` literal passed to `buildHeader` by the edit and
regenerate handlers. -/
def emptyTagSet : TagSet :=
  ⟨none, none, none, none, []⟩

/-- The `hasTags` helper (part_002 lines 140-144). -/
def hasTags (t : TagSet) : Bool :=
  t.time.isSome || t.location.isSome || t.weather.isSome || t.heart.isSome ||
    !t.characters.isEmpty

/-- The heart-meter bucket function `getHeartEmoji` (part_002 lines
76-84): seven emoji tiers selected by ascending thresholds. -/
def getHeartEmoji (points : Int) : List Char :=
  if points < 5000 then "🖤".data
  else if points < 20000 then "💜".data
  else if points < 30000 then "💙".data
  else if points < 40000 then "💚".data
  else if points < 50000 then "💛".data
  else if points < 60000 then "🧡".data
  else "❤️".data

/-- Tier number (1-7) of a heart-points value, following the same
threshold cascade as `getHeartEmoji`. -/
def heartTier (points : Int) : Nat :=
  if points < 5000 then 1
  else if points < 20000 then 2
  else if points < 30000 then 3
  else if points < 40000 then 4
  else if points < 50000 then 5
  else if points < 60000 then 6
  else 7

/-- Emoji attached to each tier number. -/
def tierEmoji (t : Nat) : List Char :=
  if t = 1 then "🖤".data
  else if t = 2 then "💜".data
  else if t = 3 then "💙".data
  else if t = 4 then "💚".data
  else if t = 5 then "💛".data
  else if t = 6 then "🧡".data
  else "❤️".data

/-- Digit grouping pass over a reversed digit string: a comma after every
three digits, as `Number.prototype.toLocaleString` renders integers in
the host's default `en-US`-style locale. -/
def insertCommas : List Char → Nat → List Char
  | [], _ => []
  | c :: rest, k =>
    if k ≥ 3 then ',' :: c :: insertCommas rest 1
    else c :: insertCommas rest (k + 1)

/-- `Number.prototype.toLocaleString` for an integral value (used only
for the heart line of the header). -/
def toLocaleStr (n : Int) : List Char :=
  if n < 0 then '-' :: (insertCommas (natToStr (-n).toNat).reverse 0).reverse
  else (insertCommas (natToStr n.toNat).reverse 0).reverse

/-- The persisted settings object, restricted to the fields the tracker
core reads and writes (DEFAULT_SETTINGS keys, part_002 lines 29-43). -/
structure Settings where
  enabled : Bool
  scanDepth : Nat
  defaultHeartPoints : Int
  heartPoints : Int
  currentTime : List Char
  currentLocation : List Char
  currentWeather : List Char
  currentCharacters : List CharacterEntry
  showTime : Bool
  showLocation : Bool
  showWeather : Bool
  showHeartMeter : Bool
  showCharacters : Bool
deriving DecidableEq

/-- One entry of the in-memory `_perMessageTracker` map (the resolved
tracker snapshot recorded for a message). -/
structure Snapshot where
  currentTime : List Char
  currentLocation : List Char
  currentWeather : List Char
  heartPoints : Int
  currentCharacters : List CharacterEntry
deriving DecidableEq

/-- Snapshot of the five live tracker fields of the settings. -/
def snapshotOf (s : Settings) : Snapshot :=
  ⟨s.currentTime, s.currentLocation, s.currentWeather, s.heartPoints,
    s.currentCharacters⟩

/-- The mutable state the tracker owns: the settings object and the
per-message cache (a map from message index to snapshot, modelled as an
association list with upsert). -/
structure TrackerState where
  settings : Settings
  perMessage : List (Nat × Snapshot)
deriving DecidableEq

/-- Upsert into the per-message cache (`_perMessageTracker[idx] = snap`). -/
def upsertSnap (m : List (Nat × Snapshot)) (k : Nat) (v : Snapshot) :
    List (Nat × Snapshot) :=
  (k, v) :: m.filter (fun p => p.1 ≠ k)

/-- One message of the host context's `recentMessages`. -/
structure Message where
  text : List Char
  index : Nat
  isUser : Bool
deriving DecidableEq

/-- Detail lines of the character block of the header: one line per
character, the name followed by the non-empty outfit/state/position
joined with ` | ` after an em dash. -/
def charDetailLine (c : CharacterEntry) : List Char :=
  let details :=
    (if c.outfit = [] then [] else [c.outfit]) ++
    (if c.state = [] then [] else [c.state]) ++
    (if c.position = [] then [] else [c.position])
  c.name ++ (if details.isEmpty then [] else " — ".data ++ List.intercalate " | ".data details)

/-- The character section of the header (part_002 lines 230-250): when
the resolved list is non-empty, a blank separator line, a summary line
with all names, then one detail line per character. -/
def charSection (chars : List CharacterEntry) : List (List Char) :=
  if chars.isEmpty then []
  else
    [] :: ("👥 Characters: ".data ++ List.intercalate ", ".data (chars.map (fun c => c.name)))
       :: chars.map charDetailLine

/-- The header builder `buildHeader` (part_002 lines 209-253): one line
per enabled field, then the character section, joined with newlines. -/
def buildHeader (tags : TagSet) (s : Settings) : List Char :=
  let lines :=
    (if s.showTime then
      ["⏰ Time: ".data ++ convertTo12Hour (jsOrOpt tags.time (jsOr s.currentTime "Unknown".data))]
     else []) ++
    (if s.showLocation then
      ["🗺️ Location: ".data ++ jsOrOpt tags.location (jsOr s.currentLocation "Unknown".data)]
     else []) ++
    (if s.showWeather then
      ["🌤️ Weather: ".data ++ jsOrOpt tags.weather (jsOr s.currentWeather "Unknown".data)]
     else []) ++
    (if s.showHeartMeter then
      ["💘 Heart Meter: ".data ++ getHeartEmoji s.heartPoints ++ ' ' :: toLocaleStr s.heartPoints]
     else []) ++
    (if s.showCharacters then
      charSection (if tags.characters.isEmpty then s.currentCharacters else tags.characters)
     else [])
  List.intercalate ['\n'] lines

/-- The heart-points update of `processAiMessage` (part_002 lines
431-437): a tag that `parseInt`s replaces the stored value clamped below
at 0; anything else retains the stored value. -/
def heartUpdate (stored : Int) (tag : Option (List Char)) : Int :=
  match tag with
  | some v =>
    match jsParseInt v with
    | some n => max 0 n
    | none => stored
  | none => stored

/-- The backfill loop's target message: scanning `recentMessages` from
the end, the first AI message whose index differs from the message being
processed (part_002 lines 410-421). -/
def findPrevAi (msgs : List Message) (messageIndex : Nat) : Option Message :=
  msgs.reverse.find? (fun m => !m.isUser && m.index ≠ messageIndex)

/-- Field-by-field backfill from the previous AI message's tags (part_002
lines 413-419): each scalar field still `null` takes the previous value;
an empty character list takes the previous non-empty list. -/
def fillFromPrev (tags prevTags : TagSet) : TagSet :=
  { time := match tags.time with | some v => some v | none => prevTags.time
    location := match tags.location with | some v => some v | none => prevTags.location
    weather := match tags.weather with | some v => some v | none => prevTags.weather
    heart := match tags.heart with | some v => some v | none => prevTags.heart
    characters :=
      if tags.characters.isEmpty then
        (if prevTags.characters.isEmpty then tags.characters else prevTags.characters)
      else tags.characters }

/-- The message processor `processAiMessage` (part_002 lines 395-453):
parse, return untouched on no tags or when disabled, backfill missing
fields from the nearest earlier AI message, update the settings fields,
record the per-message snapshot, and emit the header. -/
def processAiMessage (ctx : List Message) (st : TrackerState) (text : List Char)
    (messageIndex : Nat) : TrackerState × Option (List Char) :=
  let s := st.settings
  if s.enabled = false then (st, none)
  else
    let tags := parseTags text
    if hasTags tags = false then (st, none)
    else
      let needsFill := tags.time.isNone || tags.location.isNone ||
        tags.weather.isNone || tags.heart.isNone || tags.characters.isEmpty
      let tags :=
        if needsFill then
          match findPrevAi ctx messageIndex with
          | some prev => fillFromPrev tags (parseTags prev.text)
          | none => tags
        else tags
      let s :=
        { s with
          currentTime := match tags.time with
            | some v => convertTo12Hour v
            | none => s.currentTime
          currentLocation := match tags.location with
            | some v => v
            | none => s.currentLocation
          currentWeather := match tags.weather with
            | some v => v
            | none => s.currentWeather
          currentCharacters :=
            if tags.characters.isEmpty then s.currentCharacters else tags.characters
          heartPoints := heartUpdate s.heartPoints tags.heart }
      ({ settings := s
         perMessage := upsertSnap st.perMessage messageIndex (snapshotOf s) },
       some (buildHeader tags s))

/-- The completion handler of the regenerate action (part_002 lines
637-695): an empty response or one with no usable tags leaves everything
untouched; otherwise resolve each field against the stored settings,
record the per-message snapshot, emit a header from the resolved values,
and write the settings back only when the target is the most recent AI
message. -/
def regenCallback (ctx : List Message) (st : TrackerState) (regenIdx : Nat)
    (response : List Char) : TrackerState × Option (List Char) :=
  let s := st.settings
  if response = [] then (st, none)
  else
    let tags := parseTags response
    if hasTags tags = false then (st, none)
    else
      let newTime := match tags.time with
        | some v => convertTo12Hour v
        | none => jsOr s.currentTime "Unknown".data
      let newLocation := match tags.location with
        | some v => v
        | none => jsOr s.currentLocation "Unknown".data
      let newWeather := match tags.weather with
        | some v => v
        | none => jsOr s.currentWeather "Unknown".data
      let newHeart := heartUpdate s.heartPoints tags.heart
      let newChars := if tags.characters.isEmpty then s.currentCharacters else tags.characters
      let temp :=
        { s with
          currentTime := newTime, currentLocation := newLocation,
          currentWeather := newWeather, heartPoints := newHeart,
          currentCharacters := newChars }
      let settings' :=
        match ctx.reverse.find? (fun m => !m.isUser) with
        | some m => if m.index = regenIdx then temp else s
        | none => s
      ({ settings := settings'
         perMessage := upsertSnap st.perMessage regenIdx (snapshotOf temp) },
       some (buildHeader emptyTagSet temp))

/-- One `[char: ...]` line of the prompt's current-state block (part_002
lines 278-284): the name, then each non-empty field as `key: value`,
joined with ` | `. -/
def charPromptLine (c : CharacterEntry) : List Char :=
  let parts :=
    [c.name] ++
    (if c.outfit = [] then [] else ["outfit: ".data ++ c.outfit]) ++
    (if c.state = [] then [] else ["state: ".data ++ c.state]) ++
    (if c.position = [] then [] else ["position: ".data ++ c.position])
  "[char: ".data ++ List.intercalate " | ".data parts ++ [']']

/-- The "current tracker state" block embedded in the injected prompt
(part_002 lines 286-292): the four scalar tags, empty string fields
replaced by `unknown`, followed by one `[char: ...]` line per tracked
character. -/
def currentStateBlock (snap : Snapshot) : List Char :=
  let base := List.intercalate ['\n']
    ["[time: ".data ++ jsOr snap.currentTime "unknown".data ++ [']'],
     "[location: ".data ++ jsOr snap.currentLocation "unknown".data ++ [']'],
     "[weather: ".data ++ jsOr snap.currentWeather "unknown".data ++ [']'],
     "[heart: ".data ++ intToStr snap.heartPoints ++ [']']]
  let charLines := List.intercalate ['\n'] (snap.currentCharacters.map charPromptLine)
  if charLines = [] then base else base ++ '\n' :: charLines

/-!  Claim-side definitions.  The definitions below state the spec's
fallback chain and round-trip in the spec's own words, to be compared
with the behaviour of the embedded source functions. -/

/-- Spec-side merge step of the fallback chain: the current message's tag
when present, otherwise the nearest earlier AI message's tag. -/
def specMerge (cur prev : Option (List Char)) : Option (List Char) :=
  match cur with
  | some v => some v
  | none => prev

/-- Spec-side resolution of a merged string field exactly as the claim
states it: a present tag is used, otherwise the persisted value, and
`Unknown` when that is empty. -/
def specChainStrict (m : Option (List Char)) (stored : List Char) : List Char :=
  match m with
  | some v => v
  | none => if stored = [] then "Unknown".data else stored

/-- Amended spec-side resolution of a merged string field: a present
non-empty tag is used; a present tag that trimmed to the empty string
displays as `Unknown` (JavaScript `||` treats it as falsy, and it has
already overwritten the persisted value); an absent tag falls back to the
persisted value, and to `Unknown` when that is empty. -/
def specChain (m : Option (List Char)) (stored : List Char) : List Char :=
  match m with
  | some v => if v = [] then "Unknown".data else v
  | none => if stored = [] then "Unknown".data else stored

/-- Spec-side resolution of the heart field: a merged tag that parses as
an integer is used clamped below at 0; otherwise the persisted value is
retained. -/
def specHeart (m : Option (List Char)) (stored : Int) : Int :=
  match m with
  | some v =>
    match jsParseInt v with
    | some n => max 0 n
    | none => stored
  | none => stored

/-- Spec-side whole-list character resolution: the current list when
non-empty, otherwise the nearest earlier AI message's list when
non-empty, otherwise the persisted list. -/
def specCharChain (cur prev stored : List CharacterEntry) : List CharacterEntry :=
  if cur ≠ [] then cur else if prev ≠ [] then prev else stored

/-- The TagSet the round-trip claim expects from re-extracting a
snapshot's rendered current-state block: every scalar field present with
the snapshot's value (heart as its decimal rendering) and the snapshot's
character list. -/
def snapToTagSet (snap : Snapshot) : TagSet :=
  { time := some snap.currentTime
    location := some snap.currentLocation
    weather := some snap.currentWeather
    heart := some (intToStr snap.heartPoints)
    characters := snap.currentCharacters }

/-- Tag-safe scalar value: non-empty, bracket-free and trimmed, so that
the emitted `[key: value]` token re-parses to the same value. -/
def CleanStr (v : List Char) : Prop :=
  v ≠ [] ∧ '[' ∉ v ∧ ']' ∉ v ∧ jsTrim v = v

/-- Tag-safe optional character field: bracket-free, pipe-free and
trimmed (it may be empty, in which case it is not emitted). -/
def CleanField (v : List Char) : Prop :=
  '[' ∉ v ∧ ']' ∉ v ∧ '|' ∉ v ∧ jsTrim v = v

/-- Tag-safe character entry: a non-empty colon-free name and tag-safe
fields, so that its `[char: ...]` line re-parses to the same entry. -/
def CleanEntry (c : CharacterEntry) : Prop :=
  CleanStr c.name ∧ ':' ∉ c.name ∧ '|' ∉ c.name ∧
    CleanField c.outfit ∧ CleanField c.state ∧ CleanField c.position

/-- Tag-safe snapshot: every scalar string field and every character
entry is tag-safe. -/
def CleanSnap (snap : Snapshot) : Prop :=
  CleanStr snap.currentTime ∧ CleanStr snap.currentLocation ∧
    CleanStr snap.currentWeather ∧ ∀ c ∈ snap.currentCharacters, CleanEntry c

/-- The pipe-separated parts of one `[char: ...]` prompt line (the array
literal inside the prompt builder, part_002 lines 278-283). -/
def partsOf (c : CharacterEntry) : List (List Char) :=
  [c.name] ++
  (if c.outfit = [] then [] else ["outfit: ".data ++ c.outfit]) ++
  (if c.state = [] then [] else ["state: ".data ++ c.state]) ++
  (if c.position = [] then [] else ["position: ".data ++ c.position])

/-- Body of one `[char: ...]` prompt line between the tag anchor and the
closing bracket. -/
def charBody (c : CharacterEntry) : List Char :=
  List.intercalate " | ".data (partsOf c)

/-- The character-line suffix of the current-state block: empty when no
character line is rendered, otherwise a newline followed by the joined
`[char: ...]` lines. -/
def charTail (cs : List CharacterEntry) : List Char :=
  if List.intercalate ['\n'] (cs.map charPromptLine) = [] then []
  else '\n' :: List.intercalate ['\n'] (cs.map charPromptLine)

/-- The current-state block from its `[heart: ...]` line on, in the
right-nested form the scanning lemmas consume. -/
def blockFromHeart (snap : Snapshot) : List Char :=
  '[' :: ("heart".data ++ ':' :: ((' ' :: intToStr snap.heartPoints) ++ ']' ::
    charTail snap.currentCharacters))

/-- The current-state block from its `[weather: ...]` line on. -/
def blockFromWea (snap : Snapshot) : List Char :=
  '[' :: ("weather".data ++ ':' :: ((' ' :: snap.currentWeather) ++ ']' :: '\n' ::
    blockFromHeart snap))

/-- The current-state block from its `[location: ...]` line on. -/
def blockFromLoc (snap : Snapshot) : List Char :=
  '[' :: ("location".data ++ ':' :: ((' ' :: snap.currentLocation) ++ ']' :: '\n' ::
    blockFromWea snap))

instance (v : List Char) : Decidable (CleanStr v) := by
  unfold CleanStr; infer_instance

instance (v : List Char) : Decidable (CleanField v) := by
  unfold CleanField; infer_instance

instance (c : CharacterEntry) : Decidable (CleanEntry c) := by
  unfold CleanEntry; infer_instance

instance (snap : Snapshot) : Decidable (CleanSnap snap) := by
  unfold CleanSnap; infer_instance

/-!  Utility lemmas about characters, trimming and scanning. -/

theorem toNat_ofNat_valid (n : Nat) (h : n.isValidChar) : (Char.ofNat n).toNat = n := by
  unfold Char.ofNat
  rw [dif_pos h]
  rfl

theorem eq_bracket_of_toLower (c : Char) (h : c.toLower = '[') : c = '[' := by
  by_cases hc : c.toNat ≥ 65 ∧ c.toNat ≤ 90
  · exfalso
    have hl : c.toLower = Char.ofNat (c.toNat + 32) := by
      show (if c.toNat ≥ 65 ∧ c.toNat ≤ 90 then Char.ofNat (c.toNat + 32) else c) =
        Char.ofNat (c.toNat + 32)
      exact if_pos hc
    have hv : (c.toNat + 32).isValidChar := by
      left
      omega
    have h2 := congrArg Char.toNat (hl.symm.trans h)
    rw [toNat_ofNat_valid _ hv] at h2
    have h91 : ('[' : Char).toNat = 91 := by decide
    omega
  · have hl : c.toLower = c := by
      show (if c.toNat ≥ 65 ∧ c.toNat ≤ 90 then Char.ofNat (c.toNat + 32) else c) = c
      exact if_neg hc
    exact (hl.symm.trans h)

theorem firstIdx_none (p : Char → Bool) (l : List Char)
    (h : ∀ x ∈ l, p x = false) : firstIdx p l = none := by
  induction l with
  | nil => rfl
  | cons a as ih =>
    simp only [firstIdx, h a (by simp), Bool.false_eq_true, if_false]
    rw [ih (fun x hx => h x (by simp [hx]))]
    rfl

theorem firstIdx_append_cons (p : Char → Bool) (pre post : List Char) (c : Char)
    (hpre : ∀ x ∈ pre, p x = false) (hc : p c = true) :
    firstIdx p (pre ++ c :: post) = some pre.length := by
  induction pre with
  | nil => simp [firstIdx, hc]
  | cons a as ih =>
    have ha := hpre a (by simp)
    simp only [List.cons_append, firstIdx, ha, Bool.false_eq_true, if_false,
      List.append_eq]
    rw [ih (fun x hx => hpre x (by simp [hx]))]
    simp

theorem takeWhile_append_stop (p : Char → Bool) (v post : List Char) (c : Char)
    (hc : p c = false) : (v ++ c :: post).takeWhile p = v.takeWhile p := by
  induction v with
  | nil => simp [List.takeWhile_cons, hc]
  | cons a as ih => by_cases ha : p a <;> simp [List.takeWhile_cons, ha, ih]

theorem jsTrim_cons_ws (c : Char) (v : List Char) (h : isJsSpace c = true) :
    jsTrim (c :: v) = jsTrim v := by
  unfold jsTrim
  rw [List.dropWhile_cons, if_pos h]

theorem jsTrim_drop (j : Nat) (v : List Char)
    (h : j ≤ (v.takeWhile isJsSpace).length) : jsTrim (v.drop j) = jsTrim v := by
  induction j generalizing v with
  | zero => simp
  | succ n ih =>
    cases v with
    | nil => simp
    | cons c cs =>
      rw [List.takeWhile_cons] at h
      by_cases hc : isJsSpace c
      · rw [if_pos hc] at h
        simp only [List.length_cons] at h
        rw [List.drop_succ_cons, jsTrim_cons_ws c cs hc]
        exact ih cs (by omega)
      · rw [if_neg hc] at h
        simp at h
theorem jsTrim_eq_self (v : List Char) (h : ∀ c ∈ v, isJsSpace c = false) :
    jsTrim v = v := by
  unfold jsTrim
  have h1 : v.dropWhile isJsSpace = v := by
    cases v with
    | nil => rfl
    | cons c cs => rw [List.dropWhile_cons, if_neg (by simp [h c (by simp)])]
  rw [h1]
  have h2 : v.reverse.dropWhile isJsSpace = v.reverse := by
    cases hv : v.reverse with
    | nil => rfl
    | cons c cs =>
      have hcv : c ∈ v := by
        have hm : c ∈ v.reverse := by rw [hv]; simp
        simpa using hm
      rw [List.dropWhile_cons, if_neg (by simp [h c hcv])]
  rw [h2, List.reverse_reverse]

theorem dropWhile_eq_self_of_jsTrim (v : List Char) (h : jsTrim v = v) :
    v.dropWhile isJsSpace = v := by
  have hsuff := List.dropWhile_suffix (l := v) isJsSpace
  have hlen : (v.dropWhile isJsSpace).length = v.length := by
    have h1 := hsuff.length_le
    have h2 : (jsTrim v).length ≤ (v.dropWhile isJsSpace).length := by
      unfold jsTrim
      have := (List.dropWhile_suffix (l := (v.dropWhile isJsSpace).reverse) isJsSpace).length_le
      simpa using this
    rw [h] at h2
    omega
  exact hsuff.sublist.eq_of_length hlen

theorem rtrim_eq_self_of_jsTrim (v : List Char) (h : jsTrim v = v) :
    (v.reverse.dropWhile isJsSpace).reverse = v := by
  have hl := dropWhile_eq_self_of_jsTrim v h
  unfold jsTrim at h
  rwa [hl] at h

theorem head_not_ws_of_trimmed (c : Char) (v : List Char)
    (h : jsTrim (c :: v) = c :: v) : isJsSpace c = false := by
  have hd := dropWhile_eq_self_of_jsTrim _ h
  by_contra hb
  simp only [Bool.not_eq_false] at hb
  rw [List.dropWhile_cons, if_pos hb] at hd
  have h1 := (List.dropWhile_suffix (l := v) isJsSpace).length_le
  have h2 := congrArg List.length hd
  simp at h2
  omega

theorem jsTrim_append_trimmed (p l : List Char) (hp : jsTrim p = p) (hne : p ≠ []) :
    (p ++ l).dropWhile isJsSpace = p ++ l := by
  cases p with
  | nil => exact absurd rfl hne
  | cons c cs =>
    rw [List.cons_append, List.dropWhile_cons,
      if_neg (by simp [head_not_ws_of_trimmed c cs hp])]

theorem jsTrim_sandwich (p : List Char) (hp : jsTrim p = p) (hne : p ≠ []) :
    jsTrim (' ' :: p ++ [' ']) = p := by
  have h1 : jsTrim (' ' :: p ++ [' ']) = jsTrim (p ++ [' ']) := by
    exact jsTrim_cons_ws ' ' (p ++ [' ']) (by decide)
  rw [h1]
  unfold jsTrim
  rw [jsTrim_append_trimmed p [' '] hp hne]
  rw [List.reverse_append]
  simp only [List.reverse_cons, List.reverse_nil, List.nil_append, List.singleton_append]
  rw [List.dropWhile_cons, if_pos (by decide)]
  rw [rtrim_eq_self_of_jsTrim p hp]

theorem jsTrim_cons_space (p : List Char) : jsTrim (' ' :: p) = jsTrim p :=
  jsTrim_cons_ws ' ' p (by decide)

theorem jsTrim_append_space (p : List Char) (hp : jsTrim p = p) (hne : p ≠ []) :
    jsTrim (p ++ [' ']) = p := by
  unfold jsTrim
  rw [jsTrim_append_trimmed p [' '] hp hne]
  rw [List.reverse_append]
  simp only [List.reverse_cons, List.reverse_nil, List.nil_append, List.singleton_append]
  rw [List.dropWhile_cons, if_pos (by decide)]
  rw [rtrim_eq_self_of_jsTrim p hp]

/-!  Scanning lemmas for the bracket-tag regexes. -/

theorem ciStarts_false_of_head (tag : List Char) (c : Char) (l : List Char)
    (hc : c ≠ '[') : ciStarts (tagPattern tag) (c :: l) = false := by
  have h1 : c.toLower ≠ '[' := fun h => hc (eq_bracket_of_toLower c h)
  simp [tagPattern, ciStarts, h1]

theorem matchTagBody_none_no_close (r : List Char) (h : ']' ∉ r) :
    matchTagBody r = none := by
  unfold matchTagBody
  rw [firstIdx_none _ r (fun x hx => decide_eq_false (fun he => h (by rw [← he]; exact hx)))]

theorem tryTagAt_none_no_close (tag s : List Char) (h : ']' ∉ s) :
    tryTagAt tag s = none := by
  unfold tryTagAt
  split
  · exact matchTagBody_none_no_close _ (fun hm => h (List.mem_of_mem_drop hm))
  · rfl

theorem extractTag_cons_skip (tag : List Char) (c : Char) (l : List Char)
    (h : tryTagAt tag (c :: l) = none) :
    extractTag tag (c :: l) = extractTag tag l := by
  simp [extractTag, h]

theorem tryTagAt_none_of_head (tag : List Char) (c : Char) (l : List Char)
    (hc : c ≠ '[') : tryTagAt tag (c :: l) = none := by
  unfold tryTagAt
  rw [ciStarts_false_of_head tag c l hc]
  rfl

theorem extractTag_append_nb (tag pre l : List Char)
    (h : ∀ x ∈ pre, x ≠ '[') :
    extractTag tag (pre ++ l) = extractTag tag l := by
  induction pre with
  | nil => rfl
  | cons a as ih =>
    rw [List.cons_append,
      extractTag_cons_skip tag a (as ++ l) (tryTagAt_none_of_head tag a _ (h a (by simp)))]
    exact ih (fun x hx => h x (by simp [hx]))

theorem extractTag_none_no_close (tag text : List Char) (h : ']' ∉ text) :
    extractTag tag text = none := by
  induction text with
  | nil => rfl
  | cons c cs ih =>
    rw [extractTag_cons_skip tag c cs (tryTagAt_none_no_close tag _ h)]
    exact ih (fun hm => h (by simp [hm]))

theorem extractTag_none_no_start (tag text : List Char)
    (h : ∀ i < text.length, ciStarts (tagPattern tag) (text.drop i) = false) :
    extractTag tag text = none := by
  induction text with
  | nil => rfl
  | cons c cs ih =>
    have h0 : ciStarts (tagPattern tag) (c :: cs) = false := by
      simpa using h 0 (by simp)
    rw [extractTag_cons_skip tag c cs (by unfold tryTagAt; rw [h0]; rfl)]
    refine ih (fun i hi => ?_)
    have := h (i + 1) (by simpa using hi)
    simpa [List.drop_succ_cons] using this

theorem ciStarts_mid (lit r : List Char) :
    ciStarts (lit.map Char.toLower ++ [':']) (lit ++ ':' :: r) = true := by
  induction lit with
  | nil => simp [ciStarts]
  | cons x xs ih => simp [ciStarts, ih]

theorem ciStarts_tagPattern (tag lit r : List Char) (hl : lit.map Char.toLower = tag) :
    ciStarts (tagPattern tag) ('[' :: (lit ++ ':' :: r)) = true := by
  subst hl
  simp only [tagPattern, List.cons_append, ciStarts, List.append_eq]
  rw [ciStarts_mid]
  simp

theorem matchTagBody_success (v post : List Char) (hv : v ≠ []) (hb : ']' ∉ v) :
    matchTagBody (v ++ ']' :: post) = some (jsTrim v, post) := by
  have hidx : firstIdx (fun c => c = ']') (v ++ ']' :: post) = some v.length :=
    firstIdx_append_cons _ v post ']'
      (fun x hx => decide_eq_false (fun he => hb (he ▸ hx))) (by simp)
  unfold matchTagBody
  simp only [hidx]
  have hk0 : v.length ≠ 0 := by
    cases v with
    | nil => exact absurd rfl hv
    | cons a as => simp
  rw [if_neg hk0]
  rw [takeWhile_append_stop isJsSpace v post ']' (by decide)]
  rw [List.take_left]
  have hdrop : (v ++ ']' :: post).drop (v.length + 1) = post := by
    rw [← List.drop_drop, List.drop_left]
    rfl
  rw [hdrop, jsTrim_drop _ v (Nat.min_le_left _ _)]

theorem tryTagAt_success (tag lit v post : List Char) (hl : lit.map Char.toLower = tag)
    (hv : v ≠ []) (hb : ']' ∉ v) :
    tryTagAt tag ('[' :: (lit ++ ':' :: (v ++ ']' :: post))) = some (jsTrim v, post) := by
  unfold tryTagAt
  rw [ciStarts_tagPattern tag lit (v ++ ']' :: post) hl, if_pos rfl]
  have hlen : (tagPattern tag).length = lit.length + 2 := by
    subst hl
    simp [tagPattern]
  rw [hlen]
  have hdrop : ('[' :: (lit ++ ':' :: (v ++ ']' :: post))).drop (lit.length + 2) =
      v ++ ']' :: post := by
    have e1 : lit.length + 2 = lit.length + 1 + 1 := by omega
    rw [e1, List.drop_succ_cons, ← List.drop_drop, List.drop_left]
    rfl
  rw [hdrop, matchTagBody_success v post hv hb]

theorem extractTag_here (tag lit v post : List Char) (hl : lit.map Char.toLower = tag)
    (hv : v ≠ []) (hb : ']' ∉ v) :
    extractTag tag ('[' :: (lit ++ ':' :: (v ++ ']' :: post))) = some (jsTrim v) := by
  have h := tryTagAt_success tag lit v post hl hv hb
  rw [extractTag]
  rw [h]

theorem extractAllTagsAux_irrel (tag : List Char) (f1 : Nat) :
    ∀ (s : List Char) (f2 : Nat), s.length ≤ f1 → s.length ≤ f2 →
      extractAllTagsAux tag f1 s = extractAllTagsAux tag f2 s := by
  induction f1 with
  | zero =>
    intro s f2 h1 h2
    cases s with
    | nil => cases f2 <;> rfl
    | cons c r => simp at h1
  | succ k ih =>
    intro s f2 h1 h2
    cases s with
    | nil => cases f2 <;> rfl
    | cons c rest =>
      cases f2 with
      | zero => simp at h2
      | succ k2 =>
        simp only [extractAllTagsAux]
        cases ht : tryTagAt tag (c :: rest) with
        | none =>
          have hr : rest.length ≤ k := by simp at h1; omega
          have hr2 : rest.length ≤ k2 := by simp at h2; omega
          exact ih rest k2 hr hr2
        | some p =>
          obtain ⟨v, rem⟩ := p
          have hlt := tryTagAt_rem_lt tag (c :: rest) v rem ht
          have hr : rem.length ≤ k := by simp at h1 hlt ⊢; omega
          have hr2 : rem.length ≤ k2 := by simp at h2 hlt ⊢; omega
          exact congrArg (fun l => v :: l) (ih rem k2 hr hr2)

theorem extractAllTags_cons_skip (tag : List Char) (c : Char) (l : List Char)
    (h : tryTagAt tag (c :: l) = none) :
    extractAllTags tag (c :: l) = extractAllTags tag l := by
  unfold extractAllTags
  simp only [List.length_cons, extractAllTagsAux, h]

theorem extractAllTags_append_nb (tag pre l : List Char)
    (h : ∀ x ∈ pre, x ≠ '[') :
    extractAllTags tag (pre ++ l) = extractAllTags tag l := by
  induction pre with
  | nil => rfl
  | cons a as ih =>
    rw [List.cons_append,
      extractAllTags_cons_skip tag a (as ++ l) (tryTagAt_none_of_head tag a _ (h a (by simp)))]
    exact ih (fun x hx => h x (by simp [hx]))

theorem extractAllTags_nil_nb (tag l : List Char) (h : ∀ x ∈ l, x ≠ '[') :
    extractAllTags tag l = [] := by
  have he := extractAllTags_append_nb tag l [] h
  rw [List.append_nil] at he
  rw [he, extractAllTags]
  rfl

theorem extractAllTags_here (tag lit v post : List Char) (hl : lit.map Char.toLower = tag)
    (hv : v ≠ []) (hb : ']' ∉ v) :
    extractAllTags tag ('[' :: (lit ++ ':' :: (v ++ ']' :: post))) =
      jsTrim v :: extractAllTags tag post := by
  have h := tryTagAt_success tag lit v post hl hv hb
  unfold extractAllTags
  simp only [List.length_cons, extractAllTagsAux, h]
  congr 1
  apply extractAllTagsAux_irrel tag _ post post.length ?_ (Nat.le_refl _)
  simp only [List.length_append, List.length_cons]
  omega

/-!  Lemmas about the time normalizer. -/

theorem containsAmPm_cons (x : Char) (l : List Char) (h : containsAmPm l = true) :
    containsAmPm (x :: l) = true := by
  cases l with
  | nil => simp [containsAmPm] at h
  | cons y ys =>
    rw [containsAmPm, h]
    simp

theorem containsAmPm_append_pm (pre post : List Char) (c : Char)
    (hc : c = 'P' ∨ c = 'A') : containsAmPm (pre ++ c :: 'M' :: post) = true := by
  induction pre with
  | nil =>
    rcases hc with h | h <;> subst h <;>
      · rw [List.nil_append, containsAmPm, Bool.or_eq_true]
        left
        decide
  | cons x xs ih =>
    rw [List.cons_append]
    exact containsAmPm_cons x _ ih

theorem convert_self_of_ampm (s : List Char) (h : containsAmPm s = true) :
    convertTo12Hour s = s := by
  unfold convertTo12Hour
  by_cases h0 : s = []
  · rw [if_pos h0]
  · rw [if_neg h0, if_pos h]

theorem convert_self_of_none (s : List Char) (hm : matchTimeRegex s = none) :
    convertTo12Hour s = s := by
  unfold convertTo12Hour
  by_cases h0 : s = []
  · rw [if_pos h0]
  · rw [if_neg h0]
    by_cases h1 : containsAmPm s = true
    · rw [if_pos h1]
    · rw [if_neg h1, hm]

theorem convert_self_of_big (s ds mins rest : List Char)
    (hm : matchTimeRegex s = some (ds, mins, rest)) (hh : digitsToNat ds > 23) :
    convertTo12Hour s = s := by
  unfold convertTo12Hour
  by_cases h0 : s = []
  · rw [if_pos h0]
  · rw [if_neg h0]
    by_cases h1 : containsAmPm s = true
    · rw [if_pos h1]
    · rw [if_neg h1]
      simp only [hm]
      rw [if_pos hh]

theorem convert_eq_render (s ds mins rest : List Char) (h0 : s ≠ [])
    (h1 : containsAmPm s = false)
    (hm : matchTimeRegex s = some (ds, mins, rest)) (hh : ¬ digitsToNat ds > 23) :
    convertTo12Hour s =
      natToStr (if digitsToNat ds % 12 = 0 then 12 else digitsToNat ds % 12) ++
        ':' :: mins ++ ' ' ::
        (if digitsToNat ds ≥ 12 then ['P', 'M'] else ['A', 'M']) ++ rest := by
  unfold convertTo12Hour
  rw [if_neg h0, if_neg (by simp [h1])]
  simp only [hm, if_neg hh]

theorem containsAmPm_of_period (a mins rest p : List Char)
    (hp : p = ['P', 'M'] ∨ p = ['A', 'M']) :
    containsAmPm (a ++ ':' :: mins ++ ' ' :: p ++ rest) = true := by
  rcases hp with h | h <;> subst h
  · have he : a ++ ':' :: mins ++ ' ' :: ['P', 'M'] ++ rest =
        (a ++ ':' :: (mins ++ [' '])) ++ 'P' :: 'M' :: rest := by
      simp
    rw [he]
    exact containsAmPm_append_pm _ _ 'P' (Or.inl rfl)
  · have he : a ++ ':' :: mins ++ ' ' :: ['A', 'M'] ++ rest =
        (a ++ ':' :: (mins ++ [' '])) ++ 'A' :: 'M' :: rest := by
      simp
    rw [he]
    exact containsAmPm_append_pm _ _ 'A' (Or.inr rfl)

theorem render_ne_nil (a b : List Char) (c : Char) : a ++ c :: b ≠ [] := by
  cases a <;> simp

/-!  Claim theorems and witnesses. -/

/-- C10: the heart-emoji bucketing function is total and monotone: every
integer input (negative included) gets the tier of its threshold bracket,
negatives land in tier 1 together with 0, clamping negatives to 0 never
changes the bucket, and the tier is monotone in the points value. -/
theorem c10_heart_bucket_total_monotone :
    (∀ p : Int, getHeartEmoji p = tierEmoji (heartTier p)) ∧
    (∀ p q : Int, p ≤ q → heartTier p ≤ heartTier q) ∧
    (∀ p : Int, p < 0 → heartTier p = 1 ∧ heartTier 0 = 1) ∧
    (∀ p : Int, getHeartEmoji (max 0 p) = getHeartEmoji p) := by
  refine ⟨?_, ?_, ?_, ?_⟩
  · intro p
    unfold heartTier
    split_ifs with h1 h2 h3 h4 h5 h6 <;> simp [getHeartEmoji, tierEmoji, *]
  · intro p q h
    unfold heartTier
    split_ifs <;> omega
  · intro p h
    constructor
    · unfold heartTier
      rw [if_pos (by omega)]
    · rfl
  · intro p
    by_cases hp : p < 0
    · have he : max 0 p = 0 := max_eq_left (by omega)
      rw [he]
      unfold getHeartEmoji
      rw [if_pos (by omega : (0 : Int) < 5000), if_pos (by omega : p < 5000)]
    · have he : max 0 p = p := max_eq_right (by omega)
      rw [he]

/-- C10 witness: concrete instances of the monotonicity and the
negative-input tier. -/
theorem c10_witness :
    heartTier (-3) = 1 ∧ heartTier 100 ≤ heartTier 70000 :=
  ⟨(c10_heart_bucket_total_monotone.2.2.1 (-3) (by decide)).1,
    c10_heart_bucket_total_monotone.2.1 100 70000 (by decide)⟩

/-- C4: a heart tag that parses as an integer replaces the stored value
clamped below at 0 (`"-50"` stores 0, `"80000"` stores 80000); a tag that
does not parse retains the stored value; the emoji bucket sends every
value of at least 60000 (80000 included) to the top tier and every value
below 5000 to tier 1. -/
theorem c4_heart_parse_clamp_bucket :
    (∀ (stored : Int) (v : List Char) (n : Int),
        jsParseInt v = some n → heartUpdate stored (some v) = max 0 n) ∧
    (∀ (stored : Int) (v : List Char),
        jsParseInt v = none → heartUpdate stored (some v) = stored) ∧
    jsParseInt "-50".data = some (-50) ∧
    (∀ stored : Int, heartUpdate stored (some "-50".data) = 0) ∧
    jsParseInt "80000".data = some 80000 ∧
    (∀ stored : Int, heartUpdate stored (some "80000".data) = 80000) ∧
    (∀ p : Int, 60000 ≤ p → getHeartEmoji p = "❤️".data) ∧
    getHeartEmoji 80000 = "❤️".data ∧
    (∀ p : Int, p < 5000 → getHeartEmoji p = "🖤".data) := by
  refine ⟨?_, ?_, by decide, ?_, by decide, ?_, ?_, by decide, ?_⟩
  · intro stored v n h
    simp only [heartUpdate, h]
  · intro stored v h
    simp only [heartUpdate, h]
  · intro stored
    have h : jsParseInt "-50".data = some (-50) := by decide
    simp only [heartUpdate, h]
    decide
  · intro stored
    have h : jsParseInt "80000".data = some 80000 := by decide
    simp only [heartUpdate, h]
    decide
  · intro p h
    unfold getHeartEmoji
    split_ifs <;> first | rfl | omega
  · intro p h
    unfold getHeartEmoji
    split_ifs <;> first | rfl | omega

/-- C4 witness: the clamp and the top tier at concrete inputs. -/
theorem c4_witness :
    heartUpdate 7 (some "-50".data) = 0 ∧ getHeartEmoji 70000 = "❤️".data :=
  ⟨c4_heart_parse_clamp_bucket.2.2.2.1 7,
    c4_heart_parse_clamp_bucket.2.2.2.2.2.2.1 70000 (by decide)⟩

/-- C9: `hasTags` is false exactly on the empty TagSet (no scalar field,
no characters), and both the message processor and the regeneration
completion handler return with the state untouched and no header when the
text carries no tags. -/
theorem c9_empty_tags_no_mutation :
    (∀ t : TagSet, hasTags t = false ↔
      t.time = none ∧ t.location = none ∧ t.weather = none ∧ t.heart = none ∧
        t.characters = []) ∧
    (∀ (ctx : List Message) (st : TrackerState) (text : List Char) (idx : Nat),
      hasTags (parseTags text) = false →
        processAiMessage ctx st text idx = (st, none)) ∧
    (∀ (ctx : List Message) (st : TrackerState) (idx : Nat) (resp : List Char),
      hasTags (parseTags resp) = false →
        regenCallback ctx st idx resp = (st, none)) := by
  refine ⟨?_, ?_, ?_⟩
  · intro t
    obtain ⟨a, b, c, d, e⟩ := t
    cases a <;> cases b <;> cases c <;> cases d <;> cases e <;>
      simp [hasTags]
  · intro ctx st text idx h
    simp [processAiMessage, h]
  · intro ctx st idx resp h
    simp [regenCallback, h]

/-- C9 witness: a greeting with no tags leaves a concrete state
untouched. -/
theorem c9_witness :
    processAiMessage []
      ⟨⟨true, 10, 0, 0, [], [], [], [], true, true, true, true, true⟩, []⟩
      "Hello!".data 0 =
      (⟨⟨true, 10, 0, 0, [], [], [], [], true, true, true, true, true⟩, []⟩, none) :=
  c9_empty_tags_no_mutation.2.1 []
    ⟨⟨true, 10, 0, 0, [], [], [], [], true, true, true, true, true⟩, []⟩
    "Hello!".data 0 (by decide)

/-- C3: time normalization is idempotent; any input containing AM or PM
(case-insensitively) is returned unchanged; `"13:05"` normalizes to
`"1:05 PM"`; the out-of-range `"25:00"` is returned unchanged. -/
theorem c3_time_normalizer_idempotent :
    (∀ s : List Char, convertTo12Hour (convertTo12Hour s) = convertTo12Hour s) ∧
    (∀ s : List Char, containsAmPm s = true → convertTo12Hour s = s) ∧
    convertTo12Hour "13:05".data = "1:05 PM".data ∧
    convertTo12Hour "25:00".data = "25:00".data := by
  refine ⟨?_, convert_self_of_ampm, by decide, by decide⟩
  intro s
  by_cases h0 : s = []
  · subst h0; rfl
  by_cases h1 : containsAmPm s = true
  · rw [convert_self_of_ampm s h1, convert_self_of_ampm s h1]
  cases hm : matchTimeRegex s with
  | none => rw [convert_self_of_none s hm, convert_self_of_none s hm]
  | some t =>
    obtain ⟨ds, mins, rest⟩ := t
    by_cases hh : digitsToNat ds > 23
    · rw [convert_self_of_big s ds mins rest hm hh,
        convert_self_of_big s ds mins rest hm hh]
    · have h1f : containsAmPm s = false := by simpa using h1
      rw [convert_eq_render s ds mins rest h0 h1f hm hh]
      apply convert_self_of_ampm
      apply containsAmPm_of_period
      split_ifs <;> simp

/-- C3 witness: an already-12-hour string is returned unchanged. -/
theorem c3_witness : convertTo12Hour "4 am".data = "4 am".data :=
  c3_time_normalizer_idempotent.2.1 "4 am".data (by decide)

theorem splitFirstColon_none (part : List Char) (h : ∀ x ∈ part, x ≠ ':') :
    splitFirstColon part = none := by
  unfold splitFirstColon
  rw [firstIdx_none _ part (fun x hx => decide_eq_false (h x hx))]

theorem splitFirstColon_append (pre v : List Char) (h : ∀ x ∈ pre, x ≠ ':') :
    splitFirstColon (pre ++ ':' :: v) = some (pre, v) := by
  unfold splitFirstColon
  simp only [firstIdx_append_cons _ pre v ':' (fun x hx => decide_eq_false (h x hx)) (by simp)]
  rw [List.take_left]
  have hdrop : (pre ++ ':' :: v).drop (pre.length + 1) = v := by
    rw [← List.drop_drop, List.drop_left]
    rfl
  rw [hdrop]

/-- C6: parsing of one `[char: ...]` body: the body is split on `|`; a
segment with a recognized lowercased key (`name`, `outfit`, `state`,
`position`) updates that field; a segment with no colon or an
unrecognized key is ignored unless it is the first segment and no name is
set yet, in which case the whole segment becomes the name; an entry whose
name was never determined is discarded. -/
theorem c6_char_segment_parsing :
    (∀ (e : CharacterEntry) (i : Nat) (part : List Char),
        splitFirstColon part = none →
        updateEntry e i part =
          (if i = 0 ∧ e.name = [] then { e with name := part } else e)) ∧
    (∀ (e : CharacterEntry) (i : Nat) (pre v : List Char), (∀ x ∈ pre, x ≠ ':') →
        ((jsTrim pre).map Char.toLower = "name".data →
          updateEntry e i (pre ++ ':' :: v) = { e with name := jsTrim v }) ∧
        ((jsTrim pre).map Char.toLower = "outfit".data →
          updateEntry e i (pre ++ ':' :: v) = { e with outfit := jsTrim v }) ∧
        ((jsTrim pre).map Char.toLower = "state".data →
          updateEntry e i (pre ++ ':' :: v) = { e with state := jsTrim v }) ∧
        ((jsTrim pre).map Char.toLower = "position".data →
          updateEntry e i (pre ++ ':' :: v) = { e with position := jsTrim v }) ∧
        ((jsTrim pre).map Char.toLower ∉
            ["name".data, "outfit".data, "state".data, "position".data] →
          updateEntry e i (pre ++ ':' :: v) =
            (if i = 0 ∧ e.name = [] then { e with name := pre ++ ':' :: v } else e))) ∧
    (∀ body : List Char,
        mkCharEntry body = none ↔
          (applyParts ⟨[], [], [], []⟩ 0 ((splitOnChar '|' body).map jsTrim)).name = []) ∧
    (∀ (body : List Char) (e : CharacterEntry), mkCharEntry body = some e →
        e = applyParts ⟨[], [], [], []⟩ 0 ((splitOnChar '|' body).map jsTrim) ∧
          e.name ≠ []) ∧
    mkCharEntry "Alice | outfit: Blue dress | state: Happy".data =
      some ⟨"Alice".data, "Blue dress".data, "Happy".data, []⟩ ∧
    mkCharEntry "Bob".data = some ⟨"Bob".data, [], [], []⟩ ∧
    mkCharEntry "mood: sad".data = some ⟨"mood: sad".data, [], [], []⟩ ∧
    mkCharEntry "outfit: Blue".data = none := by
  refine ⟨?_, ?_, ?_, ?_, by decide, by decide, by decide, by decide⟩
  · intro e i part h
    simp only [updateEntry, h]
  · intro e i pre v hpre
    have hs : splitFirstColon (pre ++ ':' :: v) = some (pre, v) :=
      splitFirstColon_append pre v hpre
    refine ⟨?_, ?_, ?_, ?_, ?_⟩
    · intro hk
      simp only [updateEntry, hs, hk]
      simp
    · intro hk
      simp only [updateEntry, hs, hk]
      simp
    · intro hk
      simp only [updateEntry, hs, hk]
      simp
    · intro hk
      simp only [updateEntry, hs, hk]
      simp
    · intro hk
      simp only [List.mem_cons, not_or] at hk
      simp only [updateEntry, hs]
      rw [if_neg (by simpa using hk.1), if_neg (by simpa using hk.2.1),
        if_neg (by simpa using hk.2.2.1), if_neg (by simpa using hk.2.2.2.1)]
  · intro body
    simp only [mkCharEntry]
    split_ifs with h
    · simp [h]
    · simp [h]
  · intro body e h
    simp only [mkCharEntry] at h
    split_ifs at h with hn
    simp only [Option.some.injEq] at h
    rw [h] at hn
    exact ⟨h.symm, hn⟩

/-- C6 witness: an `outfit:` segment updates the outfit field. -/
theorem c6_witness :
    updateEntry ⟨[], [], [], []⟩ 0 ("outfit".data ++ ':' :: " Red".data) =
      { CharacterEntry.mk [] [] [] [] with outfit := jsTrim " Red".data } :=
  (c6_char_segment_parsing.2.1 ⟨[], [], [], []⟩ 0 "outfit".data " Red".data
      (by decide)).2.1 (by decide)

/-- C5: bracket-tag extraction: a well-formed `[key: value]` token whose
key is matched case-insensitively yields the trimmed interior text (the
first such occurrence, when no earlier attempt can match); text in which
no attempt can start, or with no closing `]` at all, yields absence;
`parseTags` assembles exactly these four scalar extractions plus the
ordered `[char: ...]` collection; and a sequence of `char` tags is
collected in textual order. -/
theorem c5_tag_extraction :
    (∀ tag tagLit pre v post : List Char,
        tagLit.map Char.toLower = tag → v ≠ [] → ']' ∉ v →
        (∀ i < pre.length,
          ciStarts (tagPattern tag)
            ((pre ++ '[' :: (tagLit ++ ':' :: (v ++ ']' :: post))).drop i) = false) →
        extractTag tag (pre ++ '[' :: (tagLit ++ ':' :: (v ++ ']' :: post))) =
          some (jsTrim v)) ∧
    (∀ tag text : List Char,
        (∀ i < text.length, ciStarts (tagPattern tag) (text.drop i) = false) →
        extractTag tag text = none) ∧
    (∀ tag text : List Char, ']' ∉ text → extractTag tag text = none) ∧
    (∀ text : List Char,
        parseTags text =
          ⟨extractTag "time".data text, extractTag "location".data text,
            extractTag "weather".data text, extractTag "heart".data text,
            (extractAllTags "char".data text).filterMap mkCharEntry⟩) ∧
    extractTag "time".data "[time: 1:00][time: 2:00]".data = some "1:00".data ∧
    extractTag "time".data "[time:]".data = none ∧
    (∀ tag last : List Char, ∀ pairs : List (List Char × List Char),
        tag.map Char.toLower = tag → '[' ∉ last →
        (∀ p ∈ pairs, '[' ∉ p.1 ∧ p.2 ≠ [] ∧ ']' ∉ p.2) →
        extractAllTags tag
            (pairs.foldr
              (fun p acc => p.1 ++ '[' :: (tag ++ ':' :: (p.2 ++ ']' :: acc))) last) =
          pairs.map (fun p => jsTrim p.2)) := by
  refine ⟨?_, extractTag_none_no_start, extractTag_none_no_close,
    fun _ => rfl, by decide, by decide, ?_⟩
  · intro tag tagLit pre v post hl hv hb
    induction pre with
    | nil =>
      intro _
      rw [List.nil_append]
      exact extractTag_here tag tagLit v post hl hv hb
    | cons c cs ih =>
      intro hpre
      have h0 : ciStarts (tagPattern tag)
          (c :: (cs ++ '[' :: (tagLit ++ ':' :: (v ++ ']' :: post)))) = false := by
        have hh := hpre 0 (by simp)
        simpa using hh
      rw [List.cons_append, extractTag_cons_skip tag c _ (by unfold tryTagAt; rw [h0]; rfl)]
      refine ih (fun i hi => ?_)
      have hh := hpre (i + 1) (by simpa using hi)
      simpa [List.drop_succ_cons] using hh
  · intro tag last pairs htag hlast hp
    induction pairs with
    | nil =>
      exact extractAllTags_nil_nb tag last
        (fun x hx he => hlast (by rw [← he]; exact hx))
    | cons p rest ih =>
      obtain ⟨sep, v⟩ := p
      have h1 := hp (sep, v) (by simp)
      simp only [List.foldr_cons]
      rw [extractAllTags_append_nb tag sep _
        (fun x hx he => h1.1 (by rw [← he]; exact hx))]
      rw [extractAllTags_here tag tag v _ htag h1.2.1 h1.2.2]
      rw [ih (fun q hq => hp q (by simp [hq]))]
      simp

/-- C5 witness: a concrete mixed-case tag preceded by unrelated text
extracts its trimmed value. -/
theorem c5_witness :
    extractTag "time".data
        ("x ".data ++ '[' :: ("TIME".data ++ ':' :: (" 3:00".data ++ ']' :: []))) =
      some (jsTrim " 3:00".data) :=
  c5_tag_extraction.1 "time".data "TIME".data "x ".data " 3:00".data []
    (by decide) (by decide) (by decide) (by decide)

/-- C7 (amended): character-list resolution replaces the whole list: a
current message with at least one entry resolves to exactly its own list;
a current message with zero entries adopts the nearest earlier AI
message's list when that list is non-empty, and otherwise keeps the
persisted list (the earlier message's emptiness does not clear it). -/
theorem c7_char_list_replacement :
    ∀ (ctx : List Message) (st : TrackerState) (text : List Char) (idx : Nat),
      st.settings.enabled = true → hasTags (parseTags text) = true →
      (processAiMessage ctx st text idx).1.settings.currentCharacters =
        specCharChain (parseTags text).characters
          (match findPrevAi ctx idx with
            | some m => (parseTags m.text).characters
            | none => []) st.settings.currentCharacters := by
  intro ctx st text idx he ht
  simp only [processAiMessage, he, ht, Bool.true_eq_false, if_false]
  cases hprev : findPrevAi ctx idx with
  | none =>
    simp only [ite_self]
    by_cases hc : (parseTags text).characters = []
    · simp [hc, specCharChain]
    · simp [hc, specCharChain, List.isEmpty_eq_false.mpr hc]
  | some m =>
    by_cases hc : (parseTags text).characters = []
    · have hni : ((parseTags text).time.isNone || (parseTags text).location.isNone ||
          (parseTags text).weather.isNone || (parseTags text).heart.isNone ||
          (parseTags text).characters.isEmpty) = true := by
        simp [hc]
      rw [if_pos hni]
      simp only [fillFromPrev]
      by_cases hp : (parseTags m.text).characters = []
      · simp [hp, hc, specCharChain]
      · simp [hp, hc, specCharChain, List.isEmpty_eq_false.mpr hp]
    · by_cases hni : ((parseTags text).time.isNone || (parseTags text).location.isNone ||
          (parseTags text).weather.isNone || (parseTags text).heart.isNone ||
          (parseTags text).characters.isEmpty) = true
      · rw [if_pos hni]
        simp only [fillFromPrev]
        simp [hc, specCharChain, List.isEmpty_eq_false.mpr hc]
      · rw [if_neg hni]
        simp [hc, specCharChain, List.isEmpty_eq_false.mpr hc]

/-- C7 counterexample: with a current message carrying zero character
entries and a nearest earlier AI message also carrying zero `[char:]`
tags, the resolved character list is the persisted list `[Alice]`, not
the earlier message's (empty) full list — the claim's unconditional
adoption of the earlier list fails. -/
theorem c7_counterexample :
    (parseTags "[time: 1:00 PM]".data).characters = [] ∧
    (parseTags "[location: Docks]".data).characters = [] ∧
    (processAiMessage [⟨"[time: 1:00 PM]".data, 0, false⟩]
        ⟨⟨true, 10, 0, 0, [], [], [], [⟨"Alice".data, [], [], []⟩],
          true, true, true, true, true⟩, []⟩
        "[location: Docks]".data 1).1.settings.currentCharacters =
      [⟨"Alice".data, [], [], []⟩] ∧
    ([⟨"Alice".data, [], [], []⟩] : List CharacterEntry) ≠ [] :=
  ⟨by decide, by decide, by decide, by decide⟩

/-- C7 witness: `[char: Carol]` replaces a persisted `[Alice, Bob]` list
wholesale. -/
theorem c7_witness :
    (processAiMessage []
        ⟨⟨true, 10, 0, 0, [], [], [],
          [⟨"Alice".data, [], [], []⟩, ⟨"Bob".data, [], [], []⟩],
          true, true, true, true, true⟩, []⟩
        "[char: Carol]".data 0).1.settings.currentCharacters =
      specCharChain (parseTags "[char: Carol]".data).characters
        (match findPrevAi [] 0 with
          | some m => (parseTags m.text).characters
          | none => [])
        (Settings.mk true 10 0 0 [] [] []
          [⟨"Alice".data, [], [], []⟩, ⟨"Bob".data, [], [], []⟩]
          true true true true true).currentCharacters :=
  c7_char_list_replacement []
    ⟨⟨true, 10, 0, 0, [], [], [],
      [⟨"Alice".data, [], [], []⟩, ⟨"Bob".data, [], [], []⟩],
      true, true, true, true, true⟩, []⟩
    "[char: Carol]".data 0 (by decide) (by decide)

/-!  Lemmas for the anchored time regex (soundness and completeness of
the deterministic scanner with respect to the declarative shape). -/

theorem takeWhile_all (p : Char → Bool) (l : List Char) (h : ∀ x ∈ l, p x = true) :
    l.takeWhile p = l := by
  induction l with
  | nil => rfl
  | cons c cs ih =>
    rw [List.takeWhile_cons, if_pos (h c (by simp))]
    rw [ih (fun x hx => h x (by simp [hx]))]

theorem dropWhile_append_all (p : Char → Bool) (ws tail : List Char) (c : Char)
    (hws : ∀ x ∈ ws, p x = true) (hc : p c = false) :
    (ws ++ c :: tail).dropWhile p = c :: tail := by
  induction ws with
  | nil => simp [List.dropWhile_cons, hc]
  | cons a as ih =>
    rw [List.cons_append, List.dropWhile_cons, if_pos (hws a (by simp))]
    exact ih (fun x hx => hws x (by simp [hx]))

theorem mem_takeWhile_sat (p : Char → Bool) (l : List Char) (x : Char)
    (h : x ∈ l.takeWhile p) : p x = true := by
  induction l with
  | nil => simp [List.takeWhile] at h
  | cons c cs ih =>
    rw [List.takeWhile_cons] at h
    by_cases hc : p c = true
    · rw [if_pos hc] at h
      rcases List.mem_cons.mp h with rfl | hm
      · exact hc
      · exact ih hm
    · rw [if_neg hc] at h
      simp at h

theorem checkEnd_sound (r cap : List Char) (h : checkEnd r = some cap) :
    cap = r ∧
      (r = [] ∨ ∃ ws tail, r = ws ++ ';' :: tail ∧ (∀ x ∈ ws, isJsSpace x = true) ∧
        ∀ x ∈ tail, isLineTerm x = false) := by
  unfold checkEnd at h
  split_ifs at h with h0
  · simp only [Option.some.injEq] at h
    exact ⟨h.symm.trans h0.symm, Or.inl h0⟩
  · split at h
    next tail heq =>
      split_ifs at h with hall
      · simp only [Option.some.injEq] at h
        have hr : r = r.takeWhile isJsSpace ++ ';' :: tail := by
          conv_lhs => rw [← List.takeWhile_append_dropWhile isJsSpace r]
          rw [heq]
        refine ⟨by rw [← h, ← hr], Or.inr ⟨r.takeWhile isJsSpace, tail, hr,
          fun x hx => mem_takeWhile_sat isJsSpace r x hx, ?_⟩⟩
        intro x hx
        have hh := List.all_eq_true.mp hall x hx
        simpa using hh
    next => exact absurd h (by simp)

theorem checkEnd_complete (r : List Char)
    (h : r = [] ∨ ∃ ws tail, r = ws ++ ';' :: tail ∧ (∀ x ∈ ws, isJsSpace x = true) ∧
        ∀ x ∈ tail, isLineTerm x = false) :
    checkEnd r = some r := by
  rcases h with h | ⟨ws, tail, heq, hws, hnt⟩
  · subst h; rfl
  · subst heq
    unfold checkEnd
    rw [if_neg (render_ne_nil ws tail ';')]
    simp only [dropWhile_append_all isJsSpace ws tail ';' hws (by decide)]
    simp only [takeWhile_append_stop isJsSpace ws tail ';' (by decide),
      takeWhile_all isJsSpace ws hws]
    rw [if_pos (List.all_eq_true.mpr (fun x hx => by rw [hnt x hx]; rfl))]

theorem afterMinutes_of_head_ne (rest : List Char)
    (h : ∀ r', rest ≠ ':' :: r') : afterMinutes rest = checkEnd rest := by
  cases rest with
  | nil => rfl
  | cons c cs =>
    have hc : c ≠ ':' := fun hcc => h cs (by rw [hcc])
    cases cs with
    | nil =>
      unfold afterMinutes
      split
      · rename_i heq
        exact absurd heq (by simp)
      · rfl
    | cons c2 cs2 =>
      cases cs2 with
      | nil =>
        unfold afterMinutes
        split
        · rename_i heq
          exact absurd heq (by simp)
        · rfl
      | cons c3 cs3 =>
        unfold afterMinutes
        split
        · rename_i heq
          rw [List.cons.injEq] at heq
          exact absurd heq.1 hc
        · rfl

theorem suffix_head_ne_colon (suffix : List Char)
    (h : suffix = [] ∨ ∃ ws tail, suffix = ws ++ ';' :: tail ∧
        (∀ x ∈ ws, isJsSpace x = true) ∧ ∀ x ∈ tail, isLineTerm x = false) :
    ∀ r', suffix ≠ ':' :: r' := by
  intro r' hcon
  rcases h with h | ⟨ws, tail, heq, hws, _⟩
  · rw [h] at hcon; exact absurd hcon (by simp)
  · rw [heq] at hcon
    cases ws with
    | nil => simp at hcon
    | cons a as =>
      rw [List.cons_append] at hcon
      have ha := hws a (by simp)
      rw [List.cons.injEq] at hcon
      rw [hcon.1] at ha
      exact absurd ha (by decide)

theorem afterMinutes_complete (secs : Option (Char × Char)) (suffix : List Char)
    (hsec : ∀ s1 s2, secs = some (s1, s2) → s1.isDigit = true ∧ s2.isDigit = true)
    (hsuf : suffix = [] ∨ ∃ ws tail, suffix = ws ++ ';' :: tail ∧
        (∀ x ∈ ws, isJsSpace x = true) ∧ ∀ x ∈ tail, isLineTerm x = false) :
    afterMinutes
        (secsPart secs ++ suffix) = some suffix := by
  cases secs with
  | none =>
    show afterMinutes ([] ++ suffix) = some suffix
    rw [List.nil_append,
      afterMinutes_of_head_ne suffix (suffix_head_ne_colon suffix hsuf)]
    exact checkEnd_complete suffix hsuf
  | some p =>
    obtain ⟨s1, s2⟩ := p
    have hd := hsec s1 s2 rfl
    have hb : (s1.isDigit && s2.isDigit) = true := by rw [hd.1, hd.2]; rfl
    show afterMinutes (':' :: s1 :: s2 :: suffix) = some suffix
    simp only [afterMinutes, hb]
    rw [if_true]
    exact checkEnd_complete suffix hsuf

theorem afterMinutes_sound (r cap : List Char) (h : afterMinutes r = some cap) :
    ∃ secs : Option (Char × Char),
      r = secsPart secs ++ cap ∧
      (∀ s1 s2, secs = some (s1, s2) → s1.isDigit = true ∧ s2.isDigit = true) ∧
      (cap = [] ∨ ∃ ws tail, cap = ws ++ ';' :: tail ∧ (∀ x ∈ ws, isJsSpace x = true) ∧
        ∀ x ∈ tail, isLineTerm x = false) := by
  unfold afterMinutes at h
  split at h
  · rename_i s1 s2 r'
    split_ifs at h with hb
    · obtain ⟨hcap, hshape⟩ := checkEnd_sound r' cap h
      subst hcap
      refine ⟨some (s1, s2), rfl, ?_, hshape⟩
      intro a b hab
      simp only [Option.some.injEq, Prod.mk.injEq] at hab
      rw [← hab.1, ← hab.2]
      simpa using hb
    · have hnone : checkEnd (':' :: s1 :: s2 :: r') = none := rfl
      rw [hnone] at h
      exact absurd h (by simp)
  · obtain ⟨hcap, hshape⟩ := checkEnd_sound r cap h
    subst hcap
    refine ⟨none, rfl, ?_, hshape⟩
    intro a b hab
    cases hab

theorem matchMins_complete (ds : List Char) (m1 m2 : Char)
    (secs : Option (Char × Char)) (suffix : List Char)
    (h1 : m1.isDigit = true) (h2 : m2.isDigit = true)
    (hsec : ∀ s1 s2, secs = some (s1, s2) → s1.isDigit = true ∧ s2.isDigit = true)
    (hsuf : suffix = [] ∨ ∃ ws tail, suffix = ws ++ ';' :: tail ∧
        (∀ x ∈ ws, isJsSpace x = true) ∧ ∀ x ∈ tail, isLineTerm x = false) :
    matchMins ds (m1 :: m2 ::
        (secsPart secs ++ suffix)) = some (ds, [m1, m2], suffix) := by
  have hb : (m1.isDigit && m2.isDigit) = true := by rw [h1, h2]; rfl
  simp only [matchMins, hb, if_true]
  rw [afterMinutes_complete secs suffix hsec hsuf]

theorem matchMins_sound (ds rest ds' mins cap : List Char)
    (h : matchMins ds rest = some (ds', mins, cap)) :
    ds' = ds ∧ ∃ (m1 m2 : Char) (r : List Char), rest = m1 :: m2 :: r ∧
      m1.isDigit = true ∧ m2.isDigit = true ∧ mins = [m1, m2] ∧
      afterMinutes r = some cap := by
  unfold matchMins at h
  split at h
  · rename_i m1 m2 r
    split_ifs at h with hb
    cases ha : afterMinutes r with
    | none => rw [ha] at h; exact absurd h (by simp)
    | some cap' =>
      rw [ha] at h
      simp only [Option.some.injEq, Prod.mk.injEq] at h
      obtain ⟨hds, hmins, hcap⟩ := h
      have hb2 : m1.isDigit = true ∧ m2.isDigit = true := by simpa using hb
      exact ⟨hds.symm, m1, m2, r, rfl, hb2.1, hb2.2, hmins.symm, by rw [ha, hcap]⟩
  · exact absurd h (by simp)

theorem matchTimeRegex_sound (s ds mins cap : List Char)
    (h : matchTimeRegex s = some (ds, mins, cap)) :
    (ds.length = 1 ∨ ds.length = 2) ∧ (∀ c ∈ ds, c.isDigit = true) ∧
    ∃ (m1 m2 : Char) (secs : Option (Char × Char)),
      mins = [m1, m2] ∧ m1.isDigit = true ∧ m2.isDigit = true ∧
      (∀ s1 s2, secs = some (s1, s2) → s1.isDigit = true ∧ s2.isDigit = true) ∧
      (cap = [] ∨ ∃ ws tail, cap = ws ++ ';' :: tail ∧ (∀ x ∈ ws, isJsSpace x = true) ∧
        ∀ x ∈ tail, isLineTerm x = false) ∧
      s = ds ++ ':' :: m1 :: m2 ::
        (secsPart secs ++ cap) := by
  unfold matchTimeRegex at h
  split at h
  · rename_i d1 rest
    split_ifs at h with hd
    obtain ⟨hds, m1, m2, r, hrest, hm1, hm2, hmins, hafter⟩ :=
      matchMins_sound [d1] rest ds mins cap h
    obtain ⟨secs, hr, hsec, hshape⟩ := afterMinutes_sound r cap hafter
    subst hds
    refine ⟨Or.inl rfl, ?_, m1, m2, secs, hmins, hm1, hm2, hsec, hshape, ?_⟩
    · intro c hc
      rcases List.mem_singleton.mp hc with rfl
      exact hd
    · rw [hrest, hr]
      rfl
  · rename_i d1 d2 rest hne
    split_ifs at h with hd
    obtain ⟨hds, m1, m2, r, hrest, hm1, hm2, hmins, hafter⟩ :=
      matchMins_sound [d1, d2] rest ds mins cap h
    obtain ⟨secs, hr, hsec, hshape⟩ := afterMinutes_sound r cap hafter
    subst hds
    have hd2 : d1.isDigit = true ∧ d2.isDigit = true := by simpa using hd
    refine ⟨Or.inr rfl, ?_, m1, m2, secs, hmins, hm1, hm2, hsec, hshape, ?_⟩
    · intro c hc
      rcases List.mem_cons.mp hc with rfl | hc2
      · exact hd2.1
      · rcases List.mem_singleton.mp hc2 with rfl
        exact hd2.2
    · rw [hrest, hr]
      rfl
  · exact absurd h (by simp)

theorem matchTimeRegex_complete (ds : List Char) (m1 m2 : Char)
    (secs : Option (Char × Char)) (suffix : List Char)
    (hl : ds.length = 1 ∨ ds.length = 2) (hdig : ∀ c ∈ ds, c.isDigit = true)
    (h1 : m1.isDigit = true) (h2 : m2.isDigit = true)
    (hsec : ∀ s1 s2, secs = some (s1, s2) → s1.isDigit = true ∧ s2.isDigit = true)
    (hsuf : suffix = [] ∨ ∃ ws tail, suffix = ws ++ ';' :: tail ∧
        (∀ x ∈ ws, isJsSpace x = true) ∧ ∀ x ∈ tail, isLineTerm x = false) :
    matchTimeRegex (ds ++ ':' :: m1 :: m2 ::
        (secsPart secs ++ suffix)) = some (ds, [m1, m2], suffix) := by
  rcases hl with hl | hl
  · obtain ⟨d1, rfl⟩ := List.length_eq_one.mp hl
    have hd1 : d1.isDigit = true := hdig d1 (by simp)
    simp only [List.cons_append, List.nil_append]
    unfold matchTimeRegex
    split
    · rename_i a rest heq
      simp only [List.cons.injEq] at heq
      obtain ⟨ha, -, hrest⟩ := heq
      subst ha
      subst hrest
      rw [if_pos hd1]
      exact matchMins_complete [d1] m1 m2 secs suffix h1 h2 hsec hsuf
    · rename_i a x y hx heq
      simp only [List.cons.injEq] at heq
      exact absurd heq.2.1.symm hx
    · rename_i hno1 hno2
      exact (hno1 d1 _ rfl).elim
  · obtain ⟨d1, d2, rfl⟩ := List.length_eq_two.mp hl
    have hd1 : d1.isDigit = true := hdig d1 (by simp)
    have hd2 : d2.isDigit = true := hdig d2 (by simp)
    have hne : d2 ≠ ':' := by
      intro hc
      rw [hc] at hd2
      exact absurd hd2 (by decide)
    simp only [List.cons_append, List.nil_append]
    unfold matchTimeRegex
    split
    · rename_i a rest heq
      simp only [List.cons.injEq] at heq
      exact absurd heq.2.1 hne
    · rename_i a x y hx heq
      simp only [List.cons.injEq] at heq
      obtain ⟨ha, hx2, -, hy⟩ := heq
      subst ha
      subst hx2
      subst hy
      rw [if_pos (by rw [hd1, hd2]; rfl)]
      exact matchMins_complete [d1, d2] m1 m2 secs suffix h1 h2 hsec hsuf
    · rename_i hno1 hno2
      exact (hno2 d1 d2 _ rfl).elim

/-- C2: the time normalizer converts every well-shaped 24-hour
`H:MM`/`H:MM:SS` expression (with an optional `; suffix` tail preserved
verbatim, and no `am`/`pm` substring) whose hour is at most 23 to
12-hour form — hour 0 renders as 12, hour 12 keeps 12 with PM, minutes
pass through unchanged and seconds are dropped — and conversely every
input on which the normalizer is not the identity had exactly that
well-formed shape and hour range, so every other input is returned
unchanged and no error is raised. -/
theorem c2_time_conversion :
    (∀ (ds : List Char) (m1 m2 : Char) (secs : Option (Char × Char)) (suffix : List Char),
        (ds.length = 1 ∨ ds.length = 2) → (∀ c ∈ ds, c.isDigit = true) →
        m1.isDigit = true → m2.isDigit = true →
        (∀ s1 s2, secs = some (s1, s2) → s1.isDigit = true ∧ s2.isDigit = true) →
        (suffix = [] ∨ ∃ ws tail, suffix = ws ++ ';' :: tail ∧
          (∀ x ∈ ws, isJsSpace x = true) ∧ ∀ x ∈ tail, isLineTerm x = false) →
        digitsToNat ds ≤ 23 →
        containsAmPm (ds ++ ':' :: m1 :: m2 ::
          (secsPart secs ++ suffix)) = false →
        convertTo12Hour (ds ++ ':' :: m1 :: m2 ::
          (secsPart secs ++ suffix)) =
          natToStr (if digitsToNat ds % 12 = 0 then 12 else digitsToNat ds % 12) ++
            ':' :: m1 :: m2 :: ' ' ::
            ((if digitsToNat ds ≥ 12 then ['P', 'M'] else ['A', 'M']) ++ suffix)) ∧
    (∀ s : List Char, convertTo12Hour s = s ∨
      ∃ (ds : List Char) (m1 m2 : Char) (secs : Option (Char × Char)) (suffix : List Char),
        s = ds ++ ':' :: m1 :: m2 ::
          (secsPart secs ++ suffix) ∧
        (ds.length = 1 ∨ ds.length = 2) ∧ (∀ c ∈ ds, c.isDigit = true) ∧
        m1.isDigit = true ∧ m2.isDigit = true ∧
        (∀ s1 s2, secs = some (s1, s2) → s1.isDigit = true ∧ s2.isDigit = true) ∧
        (suffix = [] ∨ ∃ ws tail, suffix = ws ++ ';' :: tail ∧
          (∀ x ∈ ws, isJsSpace x = true) ∧ ∀ x ∈ tail, isLineTerm x = false) ∧
        digitsToNat ds ≤ 23 ∧
        convertTo12Hour s =
          natToStr (if digitsToNat ds % 12 = 0 then 12 else digitsToNat ds % 12) ++
            ':' :: m1 :: m2 :: ' ' ::
            ((if digitsToNat ds ≥ 12 then ['P', 'M'] else ['A', 'M']) ++ suffix)) ∧
    convertTo12Hour "0:30".data = "12:30 AM".data ∧
    convertTo12Hour "12:00:59; Monday".data = "12:00 PM; Monday".data ∧
    convertTo12Hour "14:05".data = "2:05 PM".data ∧
    convertTo12Hour "99:00".data = "99:00".data ∧
    convertTo12Hour "notatime".data = "notatime".data := by
  refine ⟨?_, ?_, by decide, by decide, by decide, by decide, by decide⟩
  · intro ds m1 m2 secs suffix hl hdig h1 h2 hsec hsuf hle ham
    have hm := matchTimeRegex_complete ds m1 m2 secs suffix hl hdig h1 h2 hsec hsuf
    rw [convert_eq_render _ ds [m1, m2] suffix (render_ne_nil _ _ _) ham hm (by omega)]
    simp
  · intro s
    by_cases h0 : s = []
    · left
      subst h0
      rfl
    by_cases h1 : containsAmPm s = true
    · left
      exact convert_self_of_ampm s h1
    cases hm : matchTimeRegex s with
    | none =>
      left
      exact convert_self_of_none s hm
    | some t =>
      obtain ⟨ds, mins, cap⟩ := t
      by_cases hh : digitsToNat ds > 23
      · left
        exact convert_self_of_big s ds mins cap hm hh
      · right
        obtain ⟨hlen, hdig, m1, m2, secs, hmins, hm1, hm2, hsec, hshape, hs⟩ :=
          matchTimeRegex_sound s ds mins cap hm
        refine ⟨ds, m1, m2, secs, cap, hs, hlen, hdig, hm1, hm2, hsec, hshape,
          by omega, ?_⟩
        rw [convert_eq_render s ds mins cap h0 (by simpa using h1) hm hh, hmins]
        simp

/-- C2 witness: `"13:05"` built from its shape components converts to
`"1:05 PM"`. -/
theorem c2_witness :
    convertTo12Hour ("13".data ++ ':' :: '0' :: '5' ::
        (secsPart (none : Option (Char × Char)) ++ [])) =
      natToStr (if digitsToNat "13".data % 12 = 0 then 12 else digitsToNat "13".data % 12) ++
        ':' :: '0' :: '5' :: ' ' ::
        ((if digitsToNat "13".data ≥ 12 then ['P', 'M'] else ['A', 'M']) ++ []) :=
  c2_time_conversion.1 "13".data '0' '5' none [] (Or.inr rfl) (by decide) (by decide)
    (by decide) (fun s1 s2 h => by cases h) (Or.inl rfl) (by decide) (by decide)

/-!  Lemmas for the header fallback chain. -/

theorem heartUpdate_eq_specHeart (stored : Int) (tag : Option (List Char)) :
    heartUpdate stored tag = specHeart tag stored := by
  cases tag with
  | none => rfl
  | some v => cases h : jsParseInt v <;> simp [heartUpdate, specHeart, h]

theorem specMerge_none_right (a : Option (List Char)) : specMerge a none = a := by
  cases a <;> rfl

theorem specMerge_of_some (a b : Option (List Char)) (h : a.isNone = false) :
    specMerge a b = a := by
  cases a with
  | none => simp at h
  | some v => rfl

theorem fillFromPrev_time (a b : TagSet) :
    (fillFromPrev a b).time = specMerge a.time b.time := rfl

theorem fillFromPrev_location (a b : TagSet) :
    (fillFromPrev a b).location = specMerge a.location b.location := rfl

theorem fillFromPrev_weather (a b : TagSet) :
    (fillFromPrev a b).weather = specMerge a.weather b.weather := rfl

theorem fillFromPrev_heart (a b : TagSet) :
    (fillFromPrev a b).heart = specMerge a.heart b.heart := rfl

theorem buildHeader_update (t0 : TagSet) (s : Settings) (en : Bool)
    (h1 : s.showTime = true) (h2 : s.showLocation = true) (h3 : s.showWeather = true)
    (h4 : s.showHeartMeter = true) (h5 : s.showCharacters = true) :
    buildHeader t0
      { s with
        enabled := en
        currentTime := match t0.time with
          | some v => convertTo12Hour v
          | none => s.currentTime
        currentLocation := match t0.location with
          | some v => v
          | none => s.currentLocation
        currentWeather := match t0.weather with
          | some v => v
          | none => s.currentWeather
        currentCharacters :=
          if t0.characters.isEmpty then s.currentCharacters else t0.characters
        heartPoints := heartUpdate s.heartPoints t0.heart } =
    List.intercalate ['\n']
      (["⏰ Time: ".data ++ convertTo12Hour (specChain t0.time s.currentTime),
        "🗺️ Location: ".data ++ specChain t0.location s.currentLocation,
        "🌤️ Weather: ".data ++ specChain t0.weather s.currentWeather,
        "💘 Heart Meter: ".data ++ getHeartEmoji (specHeart t0.heart s.heartPoints) ++
          ' ' :: toLocaleStr (specHeart t0.heart s.heartPoints)]
       ++ charSection (if t0.characters = [] then s.currentCharacters else t0.characters)) := by
  unfold buildHeader
  simp only [h1, h2, h3, h4, h5, if_true, List.cons_append, List.nil_append]
  congr 1
  simp only [List.cons.injEq]
  refine ⟨?_, ?_, ?_, ?_, ?_⟩
  · congr 1
    cases ht : t0.time with
    | none => simp [jsOrOpt, jsOr, specChain]
    | some v =>
      by_cases hv : v = []
      · subst hv
        simp [jsOrOpt, jsOr, specChain, convertTo12Hour]
      · simp [jsOrOpt, jsOr, specChain, hv]
  · congr 1
    cases ht : t0.location with
    | none => simp [jsOrOpt, jsOr, specChain]
    | some v =>
      by_cases hv : v = []
      · subst hv
        simp [jsOrOpt, jsOr, specChain]
      · simp [jsOrOpt, jsOr, specChain, hv]
  · congr 1
    cases ht : t0.weather with
    | none => simp [jsOrOpt, jsOr, specChain]
    | some v =>
      by_cases hv : v = []
      · subst hv
        simp [jsOrOpt, jsOr, specChain]
      · simp [jsOrOpt, jsOr, specChain, hv]
  · rw [heartUpdate_eq_specHeart]
    simp
  · by_cases hc : t0.characters = []
    · simp [hc]
    · simp [hc, List.isEmpty_eq_false.mpr hc]

/-- C1 (amended): each scalar field of the header emitted for a processed
AI message follows the fallback chain current tag → nearest earlier AI
message's tag → persisted value → `"Unknown"`, with the qualifications
the code forces: a tag that trimmed to the empty string counts as falsy
and displays as `"Unknown"` (after overwriting the persisted value)
instead of being used, the time value is displayed through the 12-hour
normalizer, and the heart value follows the chain through integer
parsing, retaining the stored number when no tag parses and clamping
below at 0. -/
theorem c1_header_fallback_chain :
    ∀ (ctx : List Message) (st : TrackerState) (text : List Char) (idx : Nat)
      (cur pt : TagSet) (hp : Int),
      st.settings.enabled = true → hasTags (parseTags text) = true →
      st.settings.showTime = true → st.settings.showLocation = true →
      st.settings.showWeather = true → st.settings.showHeartMeter = true →
      st.settings.showCharacters = true →
      cur = parseTags text →
      pt = (match findPrevAi ctx idx with
            | some m => parseTags m.text
            | none => emptyTagSet) →
      hp = specHeart (specMerge cur.heart pt.heart) st.settings.heartPoints →
      (processAiMessage ctx st text idx).2 =
        some (List.intercalate ['\n']
          (["⏰ Time: ".data ++
              convertTo12Hour (specChain (specMerge cur.time pt.time)
                st.settings.currentTime),
            "🗺️ Location: ".data ++
              specChain (specMerge cur.location pt.location) st.settings.currentLocation,
            "🌤️ Weather: ".data ++
              specChain (specMerge cur.weather pt.weather) st.settings.currentWeather,
            "💘 Heart Meter: ".data ++ getHeartEmoji hp ++ ' ' :: toLocaleStr hp]
           ++ charSection (specCharChain cur.characters pt.characters
                st.settings.currentCharacters))) ∧
      (processAiMessage ctx st text idx).1.settings.heartPoints = hp := by
  intro ctx st text idx cur pt hp he ht hs1 hs2 hs3 hs4 hs5 hcur hpt hhp
  subst hhp
  subst hpt
  subst hcur
  simp only [processAiMessage, he, ht, Bool.true_eq_false, if_false]
  cases hprev : findPrevAi ctx idx with
  | none =>
    simp only [ite_self]
    constructor
    · rw [buildHeader_update (parseTags text) st.settings true hs1 hs2 hs3 hs4 hs5]
      by_cases hc : (parseTags text).characters = [] <;>
        simp [hc, specCharChain, emptyTagSet, specMerge_none_right]
    · simp only [heartUpdate_eq_specHeart, emptyTagSet, specMerge_none_right]
  | some m =>
    by_cases hni : ((parseTags text).time.isNone || (parseTags text).location.isNone ||
        (parseTags text).weather.isNone || (parseTags text).heart.isNone ||
        (parseTags text).characters.isEmpty) = true
    · rw [if_pos hni]
      constructor
      · rw [buildHeader_update (fillFromPrev (parseTags text) (parseTags m.text))
          st.settings true hs1 hs2 hs3 hs4 hs5]
        have hch : (if (fillFromPrev (parseTags text) (parseTags m.text)).characters = []
              then st.settings.currentCharacters
              else (fillFromPrev (parseTags text) (parseTags m.text)).characters) =
            specCharChain (parseTags text).characters (parseTags m.text).characters
              st.settings.currentCharacters := by
          by_cases hc : (parseTags text).characters = []
          · by_cases hpc : (parseTags m.text).characters = [] <;>
              simp [fillFromPrev, hc, hpc, specCharChain]
          · simp [fillFromPrev, hc, specCharChain, List.isEmpty_eq_false.mpr hc]
        rw [hch, fillFromPrev_time, fillFromPrev_location, fillFromPrev_weather,
          fillFromPrev_heart]
      · rw [fillFromPrev_heart, heartUpdate_eq_specHeart]
    · rw [if_neg hni]
      simp only [Bool.or_eq_true, not_or, Bool.not_eq_true] at hni
      obtain ⟨⟨⟨⟨hn1, hn2⟩, hn3⟩, hn4⟩, hn5⟩ := hni
      have hc : (parseTags text).characters ≠ [] := by
        intro hcc
        rw [List.isEmpty_eq_true.mpr hcc] at hn5
        exact absurd hn5 (by simp)
      constructor
      · rw [buildHeader_update (parseTags text) st.settings true hs1 hs2 hs3 hs4 hs5]
        rw [specMerge_of_some _ _ hn1, specMerge_of_some _ _ hn2,
          specMerge_of_some _ _ hn3, specMerge_of_some _ _ hn4]
        simp [hc, specCharChain]
      · rw [heartUpdate_eq_specHeart, specMerge_of_some _ _ hn4]

/-- C1 counterexample: `[location: ]` extracts as a present (non-null)
empty-string tag, but the header does not use it — it shows `Unknown`
(the tag overwrote the persisted `Docks` and is falsy for display), so
the claim's unconditional "present tag is used" fails. -/
theorem c1_counterexample :
    (parseTags "[location: ]".data).location = some [] ∧
    specChainStrict (specMerge (parseTags "[location: ]".data).location none)
      "Docks".data = [] ∧
    (processAiMessage []
        ⟨⟨true, 10, 0, 0, [], "Docks".data, [], [], false, true, false, false, false⟩, []⟩
        "[location: ]".data 0).2 = some ("🗺️ Location: Unknown".data) ∧
    "🗺️ Location: Unknown".data ≠ "🗺️ Location: ".data ++ ([] : List Char) :=
  ⟨by decide, by decide, by decide, by decide⟩

/-- C1 witness: `[time: 14:05][heart: 75000]` against persisted location
`Docks` resolves time from the tag, location from the settings, weather
to `Unknown`, and heart to 75000. -/
theorem c1_witness :
    (processAiMessage []
        ⟨⟨true, 10, 0, 0, [], "Docks".data, [], [], true, true, true, true, true⟩, []⟩
        "[time: 14:05][heart: 75000]".data 0).2 =
      some (List.intercalate ['\n']
        ["⏰ Time: ".data ++
            convertTo12Hour (specChain (specMerge (some "14:05".data) none) []),
         "🗺️ Location: ".data ++ specChain (specMerge none none) "Docks".data,
         "🌤️ Weather: ".data ++ specChain (specMerge none none) [],
         "💘 Heart Meter: ".data ++ getHeartEmoji 75000 ++ ' ' :: toLocaleStr 75000]) ∧
    (processAiMessage []
        ⟨⟨true, 10, 0, 0, [], "Docks".data, [], [], true, true, true, true, true⟩, []⟩
        "[time: 14:05][heart: 75000]".data 0).1.settings.heartPoints = 75000 :=
  c1_header_fallback_chain []
    ⟨⟨true, 10, 0, 0, [], "Docks".data, [], [], true, true, true, true, true⟩, []⟩
    "[time: 14:05][heart: 75000]".data 0
    ⟨some "14:05".data, none, none, some "75000".data, []⟩ emptyTagSet 75000
    rfl (by decide) rfl rfl rfl rfl rfl (by decide) (by decide) (by decide)

/-!  Lemmas for the prompt round-trip (claim C8): trimming from both
ends, digit strings, intercalation, and the `[char: ...]` body. -/

theorem head_not_ws_of_dropWhile (a : Char) (as : List Char)
    (h : (a :: as).dropWhile isJsSpace = a :: as) : isJsSpace a = false := by
  by_contra hb
  simp only [Bool.not_eq_false] at hb
  rw [List.dropWhile_cons, if_pos hb] at h
  have hlen := (List.dropWhile_suffix (l := as) isJsSpace).length_le
  have h2 := congrArg List.length h
  simp at h2
  omega

theorem last_not_ws_of_trimmed (l : List Char) (htr : jsTrim l = l) (c : Char)
    (hc : l.getLast? = some c) : isJsSpace c = false := by
  have hrev : l.reverse.dropWhile isJsSpace = l.reverse := by
    have h1 := rtrim_eq_self_of_jsTrim l htr
    calc l.reverse.dropWhile isJsSpace
        = ((l.reverse.dropWhile isJsSpace).reverse).reverse := by simp
      _ = l.reverse := by rw [h1]
  cases hr : l.reverse with
  | nil =>
    have : l = [] := by simpa using hr
    subst this
    simp at hc
  | cons b bs =>
    have hb : b = c := by
      have h2 := List.head?_reverse l
      rw [hr] at h2
      rw [hc] at h2
      simpa using h2
    subst hb
    rw [hr] at hrev
    exact head_not_ws_of_dropWhile b bs hrev

theorem head?_not_ws_of_trimmed (l : List Char) (htr : jsTrim l = l) (c : Char)
    (hc : l.head? = some c) : isJsSpace c = false := by
  cases l with
  | nil => simp at hc
  | cons a as =>
    have : a = c := by simpa using hc
    subst this
    exact head_not_ws_of_trimmed a as htr

theorem head?_append_ne (p X : List Char) (hp : p ≠ []) :
    (p ++ X).head? = p.head? := by
  cases p with
  | nil => exact absurd rfl hp
  | cons a as => rfl

theorem getLast?_append_ne (X v : List Char) (hv : v ≠ []) :
    (X ++ v).getLast? = v.getLast? := by
  rw [← List.head?_reverse, List.reverse_append, ← List.head?_reverse v]
  cases hr : v.reverse with
  | nil => exact absurd (by simpa using hr) hv
  | cons b bs => rfl

theorem jsTrim_eq_self_of_ends (l : List Char) (hne : l ≠ [])
    (hh : ∀ c, l.head? = some c → isJsSpace c = false)
    (hl : ∀ c, l.getLast? = some c → isJsSpace c = false) : jsTrim l = l := by
  cases l with
  | nil => exact absurd rfl hne
  | cons a as =>
    have ha := hh a rfl
    unfold jsTrim
    rw [List.dropWhile_cons, if_neg (by simp [ha])]
    cases hr : (a :: as).reverse with
    | nil => simp at hr
    | cons b bs =>
      have hb2 : (a :: as).getLast? = some b := by
        rw [← List.head?_reverse, hr]
        rfl
      have hbns := hl b hb2
      rw [List.dropWhile_cons, if_neg (by simp [hbns])]
      rw [← hr, List.reverse_reverse]

theorem jsTrim_label (c0 : Char) (mid v : List Char) (hc0 : isJsSpace c0 = false)
    (hv : jsTrim v = v) (hvne : v ≠ []) :
    jsTrim ((c0 :: mid) ++ v) = (c0 :: mid) ++ v := by
  apply jsTrim_eq_self_of_ends
  · simp
  · intro c hc
    have : c0 = c := by simpa using hc
    subst this
    exact hc0
  · intro c hc
    rw [getLast?_append_ne _ v hvne] at hc
    exact last_not_ws_of_trimmed v hv c hc

theorem digitChar_mem (m : Nat) (h : m < 10) : Nat.digitChar m ∈ "0123456789".data := by
  interval_cases m <;> decide

theorem natToStrAux_digits (fuel : Nat) :
    ∀ (n : Nat) (c : Char), c ∈ natToStrAux fuel n → c ∈ "0123456789".data := by
  induction fuel with
  | zero => intro n c hc; simp [natToStrAux] at hc
  | succ f ih =>
    intro n c hc
    simp only [natToStrAux] at hc
    by_cases hn : n < 10
    · rw [if_pos hn] at hc
      have hcn : c = Nat.digitChar n := by simpa using hc
      rw [hcn]
      exact digitChar_mem n hn
    · rw [if_neg hn] at hc
      rcases List.mem_append.mp hc with h1 | h2
      · exact ih (n / 10) c h1
      · have hcn : c = Nat.digitChar (n % 10) := by simpa using h2
        rw [hcn]
        exact digitChar_mem _ (Nat.mod_lt _ (by norm_num))

theorem digit_clean (c : Char) (h : c ∈ "0123456789".data) :
    c ≠ '[' ∧ c ≠ ']' ∧ isJsSpace c = false := by
  fin_cases h <;> exact ⟨by decide, by decide, by decide⟩

theorem natToStr_ne_nil (m : Nat) : natToStr m ≠ [] := by
  unfold natToStr natToStrAux
  by_cases h : m < 10 <;> simp [h]

theorem intToStr_clean (n : Int) : CleanStr (intToStr n) := by
  unfold intToStr
  by_cases hn : n < 0
  · rw [if_pos hn]
    refine ⟨by simp, ?_, ?_, ?_⟩
    · intro hm
      rcases List.mem_cons.mp hm with h | h
      · exact absurd h.symm (by decide)
      · exact absurd rfl (digit_clean _ (natToStrAux_digits _ _ _ h)).1
    · intro hm
      rcases List.mem_cons.mp hm with h | h
      · exact absurd h.symm (by decide)
      · exact absurd rfl (digit_clean _ (natToStrAux_digits _ _ _ h)).2.1
    · refine jsTrim_eq_self _ (fun c hc => ?_)
      rcases List.mem_cons.mp hc with h | h
      · rw [h]; decide
      · exact (digit_clean _ (natToStrAux_digits _ _ _ h)).2.2
  · rw [if_neg hn]
    refine ⟨natToStr_ne_nil _, ?_, ?_, ?_⟩
    · intro hm
      exact absurd rfl (digit_clean _ (natToStrAux_digits _ _ _ hm)).1
    · intro hm
      exact absurd rfl (digit_clean _ (natToStrAux_digits _ _ _ hm)).2.1
    · exact jsTrim_eq_self _ (fun c hc => (digit_clean _ (natToStrAux_digits _ _ _ hc)).2.2)

theorem intercalate_cons2 (s p q : List Char) (rest : List (List Char)) :
    List.intercalate s (p :: q :: rest) = p ++ (s ++ List.intercalate s (q :: rest)) := rfl

theorem intercalate_single (s p : List Char) : List.intercalate s [p] = p := by
  have h : List.intercalate s [p] = p ++ [] := rfl
  rw [h, List.append_nil]

theorem mem_intercalate (s : List Char) :
    ∀ (parts : List (List Char)) (x : Char),
      x ∈ List.intercalate s parts → x ∈ s ∨ ∃ p ∈ parts, x ∈ p := by
  intro parts
  induction parts with
  | nil =>
    intro x hx
    rw [show List.intercalate s ([] : List (List Char)) = [] from rfl] at hx
    simp at hx
  | cons p rest ih =>
    intro x hx
    cases rest with
    | nil =>
      rw [intercalate_single] at hx
      exact Or.inr ⟨p, by simp, hx⟩
    | cons q rest' =>
      rw [intercalate_cons2] at hx
      rcases List.mem_append.mp hx with h1 | h1
      · exact Or.inr ⟨p, by simp, h1⟩
      · rcases List.mem_append.mp h1 with h2 | h2
        · exact Or.inl h2
        · rcases ih x h2 with h3 | ⟨r, hr, hxr⟩
          · exact Or.inl h3
          · exact Or.inr ⟨r, by simp [hr], hxr⟩

theorem body_trimNE :
    ∀ (parts : List (List Char)), parts ≠ [] →
      (∀ p ∈ parts, jsTrim p = p ∧ p ≠ []) →
      jsTrim (List.intercalate " | ".data parts) = List.intercalate " | ".data parts ∧
        List.intercalate " | ".data parts ≠ [] := by
  intro parts
  induction parts with
  | nil => intro h _; exact absurd rfl h
  | cons p rest ih =>
    intro _ hall
    obtain ⟨hptr, hpne⟩ := hall p (by simp)
    cases rest with
    | nil =>
      rw [intercalate_single]
      exact ⟨hptr, hpne⟩
    | cons q rest' =>
      obtain ⟨htr', hne'⟩ := ih (by simp) (fun r hr => hall r (by simp [hr]))
      rw [intercalate_cons2]
      have hne2 : p ++ (" | ".data ++ List.intercalate " | ".data (q :: rest')) ≠ [] := by
        simp [List.append_eq_nil, hpne]
      refine ⟨jsTrim_eq_self_of_ends _ hne2 ?_ ?_, hne2⟩
      · intro c hc
        rw [head?_append_ne p _ hpne] at hc
        exact head?_not_ws_of_trimmed p hptr c hc
      · intro c hc
        rw [getLast?_append_ne _ _ (by simp [List.append_eq_nil, hne'])] at hc
        rw [getLast?_append_ne _ _ hne'] at hc
        exact last_not_ws_of_trimmed _ htr' c hc

theorem partsOf_facts (c : CharacterEntry) (h : CleanEntry c) :
    ∀ p ∈ partsOf c, jsTrim p = p ∧ p ≠ [] ∧ ']' ∉ p ∧ '|' ∉ p := by
  obtain ⟨⟨hnne, _, hnnb, hntr⟩, _, hnp, ⟨_, ho2, ho3, ho4⟩, ⟨_, hs2, hs3, hs4⟩,
    ⟨_, hp2, hp3, hp4⟩⟩ := h
  intro p hp
  simp only [partsOf, List.append_assoc, List.mem_append, List.mem_singleton] at hp
  rcases hp with rfl | hp | hp | hp
  · exact ⟨hntr, hnne, hnnb, hnp⟩
  · by_cases hb : c.outfit = []
    · simp [hb] at hp
    · rw [if_neg hb] at hp
      have hpv : p = "outfit: ".data ++ c.outfit := by simpa using hp
      subst hpv
      refine ⟨jsTrim_label 'o' "utfit: ".data c.outfit (by decide) ho4 hb, ?_, ?_, ?_⟩
      · simp [List.append_eq_nil]
      · intro hm
        rcases List.mem_append.mp hm with h1 | h1
        · exact absurd h1 (by decide)
        · exact ho2 h1
      · intro hm
        rcases List.mem_append.mp hm with h1 | h1
        · exact absurd h1 (by decide)
        · exact ho3 h1
  · by_cases hb : c.state = []
    · simp [hb] at hp
    · rw [if_neg hb] at hp
      have hpv : p = "state: ".data ++ c.state := by simpa using hp
      subst hpv
      refine ⟨jsTrim_label 's' "tate: ".data c.state (by decide) hs4 hb, ?_, ?_, ?_⟩
      · simp [List.append_eq_nil]
      · intro hm
        rcases List.mem_append.mp hm with h1 | h1
        · exact absurd h1 (by decide)
        · exact hs2 h1
      · intro hm
        rcases List.mem_append.mp hm with h1 | h1
        · exact absurd h1 (by decide)
        · exact hs3 h1
  · by_cases hb : c.position = []
    · simp [hb] at hp
    · rw [if_neg hb] at hp
      have hpv : p = "position: ".data ++ c.position := by simpa using hp
      subst hpv
      refine ⟨jsTrim_label 'p' "osition: ".data c.position (by decide) hp4 hb, ?_, ?_, ?_⟩
      · simp [List.append_eq_nil]
      · intro hm
        rcases List.mem_append.mp hm with h1 | h1
        · exact absurd h1 (by decide)
        · exact hp2 h1
      · intro hm
        rcases List.mem_append.mp hm with h1 | h1
        · exact absurd h1 (by decide)
        · exact hp3 h1

theorem partsOf_ne_nil (c : CharacterEntry) : partsOf c ≠ [] := by
  simp [partsOf]

theorem charBody_trim (c : CharacterEntry) (h : CleanEntry c) :
    jsTrim (charBody c) = charBody c ∧ charBody c ≠ [] := by
  unfold charBody
  exact body_trimNE (partsOf c) (partsOf_ne_nil c)
    (fun p hp => ⟨(partsOf_facts c h p hp).1, (partsOf_facts c h p hp).2.1⟩)

theorem charBody_no_close (c : CharacterEntry) (h : CleanEntry c) :
    ']' ∉ charBody c := by
  intro hm
  rcases mem_intercalate " | ".data (partsOf c) ']' hm with h1 | ⟨p, hp, hxp⟩
  · exact absurd h1 (by decide)
  · exact (partsOf_facts c h p hp).2.2.1 hxp

theorem splitOnChar_ne_nil (sep : Char) (l : List Char) : splitOnChar sep l ≠ [] := by
  induction l with
  | nil => simp [splitOnChar]
  | cons c rest ih =>
    simp only [splitOnChar]
    cases h : splitOnChar sep rest with
    | nil => simp
    | cons seg segs => by_cases hc : c = sep <;> simp [hc]

theorem splitOnChar_no_sep (sep : Char) (l : List Char) (h : sep ∉ l) :
    splitOnChar sep l = [l] := by
  induction l with
  | nil => rfl
  | cons c rest ih =>
    have hc : c ≠ sep := by
      intro he
      exact h (by rw [he]; exact List.mem_cons_self sep rest)
    simp only [splitOnChar, ih (fun hm => h (by simp [hm]))]
    rw [if_neg hc]

theorem splitOnChar_sep_append (sep : Char) (a rest : List Char) (ha : sep ∉ a) :
    splitOnChar sep (a ++ sep :: rest) = a :: splitOnChar sep rest := by
  induction a with
  | nil =>
    simp only [List.nil_append, splitOnChar]
    cases h : splitOnChar sep rest with
    | nil => exact absurd h (splitOnChar_ne_nil sep rest)
    | cons seg segs => simp
  | cons c as ih =>
    have hc : c ≠ sep := by
      intro he
      exact ha (by rw [he]; exact List.mem_cons_self sep as)
    rw [List.cons_append]
    simp only [splitOnChar]
    rw [ih (fun hm => ha (by simp [hm]))]
    simp [hc]

theorem split_trim_aux :
    ∀ (parts : List (List Char)), parts ≠ [] →
      (∀ p ∈ parts, jsTrim p = p ∧ p ≠ [] ∧ '|' ∉ p) →
      (splitOnChar '|' (' ' :: List.intercalate " | ".data parts)).map jsTrim = parts := by
  intro parts
  induction parts with
  | nil => intro h _; exact absurd rfl h
  | cons p rest ih =>
    intro _ hall
    obtain ⟨hptr, hpne, hpns⟩ := hall p (by simp)
    cases rest with
    | nil =>
      rw [intercalate_single]
      rw [splitOnChar_no_sep '|' (' ' :: p) (by
        intro hm
        rcases List.mem_cons.mp hm with h | h
        · exact absurd h (by decide)
        · exact hpns h)]
      rw [List.map_cons, List.map_nil, jsTrim_cons_space, hptr]
    | cons q rest' =>
      rw [intercalate_cons2]
      have hsh : ' ' :: (p ++ (" | ".data ++ List.intercalate " | ".data (q :: rest'))) =
          ((' ' :: p) ++ [' ']) ++ '|' :: (' ' :: List.intercalate " | ".data (q :: rest')) := by
        simp [List.append_assoc]
      rw [hsh]
      rw [splitOnChar_sep_append '|' _ _ (by
        intro hm
        rcases List.mem_append.mp hm with h | h
        · rcases List.mem_cons.mp h with h2 | h2
          · exact absurd h2 (by decide)
          · exact hpns h2
        · exact absurd h (by decide))]
      rw [List.map_cons]
      have h2 : jsTrim ((' ' :: p) ++ [' ']) = p := jsTrim_sandwich p hptr hpne
      rw [h2, ih (by simp) (fun r hr => hall r (by simp [hr]))]

theorem split_trim_parts (parts : List (List Char)) (hne : parts ≠ [])
    (hall : ∀ p ∈ parts, jsTrim p = p ∧ p ≠ [] ∧ '|' ∉ p) :
    (splitOnChar '|' (List.intercalate " | ".data parts)).map jsTrim = parts := by
  cases parts with
  | nil => exact absurd rfl hne
  | cons p rest =>
    obtain ⟨hptr, hpne, hpns⟩ := hall p (by simp)
    cases rest with
    | nil =>
      rw [intercalate_single]
      rw [splitOnChar_no_sep '|' p hpns]
      rw [List.map_cons, List.map_nil, hptr]
    | cons q rest' =>
      rw [intercalate_cons2]
      have hsh : p ++ (" | ".data ++ List.intercalate " | ".data (q :: rest')) =
          (p ++ [' ']) ++ '|' :: (' ' :: List.intercalate " | ".data (q :: rest')) := by
        simp [List.append_assoc]
      rw [hsh]
      rw [splitOnChar_sep_append '|' _ _ (by
        intro hm
        rcases List.mem_append.mp hm with h | h
        · exact hpns h
        · exact absurd h (by decide))]
      rw [List.map_cons]
      rw [jsTrim_append_space p hptr hpne]
      rw [split_trim_aux (q :: rest') (by simp) (fun r hr => hall r (by simp [hr]))]

theorem applyParts_append (e : CharacterEntry) (i : Nat) (xs ys : List (List Char)) :
    applyParts e i (xs ++ ys) = applyParts (applyParts e i xs) (i + xs.length) ys := by
  induction xs generalizing e i with
  | nil => simp [applyParts]
  | cons x xs ih =>
    simp only [List.cons_append, applyParts, List.append_eq]
    rw [ih]
    congr 1
    simp [List.length_cons]
    omega

theorem applyParts_name0 (n : List Char) (hn : ':' ∉ n) :
    applyParts ⟨[], [], [], []⟩ 0 [n] = ⟨n, [], [], []⟩ := by
  simp only [applyParts, updateEntry, splitFirstColon_none n (fun x hx he => hn (he ▸ hx))]
  rw [if_pos (by simp)]

theorem updateEntry_outfit (e : CharacterEntry) (i : Nat) (v : List Char)
    (hv : jsTrim v = v) :
    updateEntry e i ("outfit: ".data ++ v) = { e with outfit := v } := by
  have h1 : splitFirstColon ("outfit: ".data ++ v) = some ("outfit".data, ' ' :: v) :=
    splitFirstColon_append "outfit".data (' ' :: v) (by decide)
  simp only [updateEntry, h1]
  rw [if_neg (by decide), if_pos (by decide)]
  rw [jsTrim_cons_space, hv]

theorem updateEntry_state (e : CharacterEntry) (i : Nat) (v : List Char)
    (hv : jsTrim v = v) :
    updateEntry e i ("state: ".data ++ v) = { e with state := v } := by
  have h1 : splitFirstColon ("state: ".data ++ v) = some ("state".data, ' ' :: v) :=
    splitFirstColon_append "state".data (' ' :: v) (by decide)
  simp only [updateEntry, h1]
  rw [if_neg (by decide), if_neg (by decide), if_pos (by decide)]
  rw [jsTrim_cons_space, hv]

theorem updateEntry_position (e : CharacterEntry) (i : Nat) (v : List Char)
    (hv : jsTrim v = v) :
    updateEntry e i ("position: ".data ++ v) = { e with position := v } := by
  have h1 : splitFirstColon ("position: ".data ++ v) = some ("position".data, ' ' :: v) :=
    splitFirstColon_append "position".data (' ' :: v) (by decide)
  simp only [updateEntry, h1]
  rw [if_neg (by decide), if_neg (by decide), if_neg (by decide), if_pos (by decide)]
  rw [jsTrim_cons_space, hv]

theorem applyParts_outfit (e : CharacterEntry) (i : Nat) (v : List Char)
    (hv : jsTrim v = v) :
    applyParts e i (if v = [] then [] else ["outfit: ".data ++ v]) =
      { e with outfit := if v = [] then e.outfit else v } := by
  by_cases h0 : v = []
  · rw [if_pos h0, if_pos h0]
    rfl
  · rw [if_neg h0, if_neg h0]
    simp only [applyParts]
    rw [updateEntry_outfit e i v hv]

theorem applyParts_state (e : CharacterEntry) (i : Nat) (v : List Char)
    (hv : jsTrim v = v) :
    applyParts e i (if v = [] then [] else ["state: ".data ++ v]) =
      { e with state := if v = [] then e.state else v } := by
  by_cases h0 : v = []
  · rw [if_pos h0, if_pos h0]
    rfl
  · rw [if_neg h0, if_neg h0]
    simp only [applyParts]
    rw [updateEntry_state e i v hv]

theorem applyParts_position (e : CharacterEntry) (i : Nat) (v : List Char)
    (hv : jsTrim v = v) :
    applyParts e i (if v = [] then [] else ["position: ".data ++ v]) =
      { e with position := if v = [] then e.position else v } := by
  by_cases h0 : v = []
  · rw [if_pos h0, if_pos h0]
    rfl
  · rw [if_neg h0, if_neg h0]
    simp only [applyParts]
    rw [updateEntry_position e i v hv]

theorem mkCharEntry_roundtrip (c : CharacterEntry) (h : CleanEntry c) :
    mkCharEntry (charBody c) = some c := by
  have hparts := partsOf_facts c h
  obtain ⟨⟨hnne, _, _, hntr⟩, hnc, _, ⟨_, _, _, ho4⟩, ⟨_, _, _, hs4⟩, ⟨_, _, _, hp4⟩⟩ := h
  simp only [mkCharEntry, charBody]
  rw [split_trim_parts (partsOf c) (partsOf_ne_nil c)
    (fun p hp => ⟨(hparts p hp).1, (hparts p hp).2.1, (hparts p hp).2.2.2⟩)]
  have happ : applyParts ⟨[], [], [], []⟩ 0 (partsOf c) = c := by
    obtain ⟨n, o, s, pz⟩ := c
    simp only [partsOf]
    rw [applyParts_append, applyParts_append, applyParts_append]
    rw [applyParts_name0 n hnc]
    rw [applyParts_outfit _ _ o ho4, applyParts_state _ _ s hs4,
      applyParts_position _ _ pz hp4]
    by_cases ho : o = [] <;> by_cases hs : s = [] <;> by_cases hp : pz = [] <;>
      simp [ho, hs, hp]
  rw [happ]
  rw [if_neg hnne]

theorem extractTag_cons_nl (tag l : List Char) :
    extractTag tag ('\n' :: l) = extractTag tag l :=
  extractTag_cons_skip tag '\n' l (tryTagAt_none_of_head tag '\n' l (by decide))

theorem extractAllTags_cons_nl (tag l : List Char) :
    extractAllTags tag ('\n' :: l) = extractAllTags tag l :=
  extractAllTags_cons_skip tag '\n' l (tryTagAt_none_of_head tag '\n' l (by decide))

theorem tryTagAt_none_second (t : Char) (ts : List Char) (c : Char) (l : List Char)
    (hc : c.toLower ≠ t) : tryTagAt (t :: ts) ('[' :: c :: l) = none := by
  have hlb : ('[' : Char).toLower = '[' := by decide
  have hci : ciStarts (tagPattern (t :: ts)) ('[' :: c :: l) = false := by
    show ciStarts ('[' :: t :: (ts ++ [':'])) ('[' :: c :: l) = false
    simp [ciStarts, hlb, hc]
  unfold tryTagAt
  rw [hci]
  rfl

theorem extractTag_skip_line (t : Char) (ts : List Char) (c : Char)
    (key v post : List Char) (hc : c.toLower ≠ t) (hcnb : c ≠ '[')
    (hkey : ∀ x ∈ key, x ≠ '[') (hv : '[' ∉ v) :
    extractTag (t :: ts) ('[' :: c :: (key ++ (v ++ ']' :: post))) =
      extractTag (t :: ts) post := by
  rw [extractTag_cons_skip _ '[' _ (tryTagAt_none_second t ts c _ hc)]
  rw [extractTag_cons_skip _ c _ (tryTagAt_none_of_head _ c _ hcnb)]
  rw [extractTag_append_nb _ key _ hkey]
  rw [extractTag_append_nb _ v _ (fun x hx he => hv (he ▸ hx))]
  rw [extractTag_cons_skip _ ']' _ (tryTagAt_none_of_head _ ']' _ (by decide))]

theorem extractAllTags_skip_line (t : Char) (ts : List Char) (c : Char)
    (key v post : List Char) (hc : c.toLower ≠ t) (hcnb : c ≠ '[')
    (hkey : ∀ x ∈ key, x ≠ '[') (hv : '[' ∉ v) :
    extractAllTags (t :: ts) ('[' :: c :: (key ++ (v ++ ']' :: post))) =
      extractAllTags (t :: ts) post := by
  rw [extractAllTags_cons_skip _ '[' _ (tryTagAt_none_second t ts c _ hc)]
  rw [extractAllTags_cons_skip _ c _ (tryTagAt_none_of_head _ c _ hcnb)]
  rw [extractAllTags_append_nb _ key _ hkey]
  rw [extractAllTags_append_nb _ v _ (fun x hx he => hv (he ▸ hx))]
  rw [extractAllTags_cons_skip _ ']' _ (tryTagAt_none_of_head _ ']' _ (by decide))]

theorem charPromptLine_append (c : CharacterEntry) (post : List Char) :
    charPromptLine c ++ post =
      '[' :: ("char".data ++ ':' :: ((' ' :: charBody c) ++ ']' :: post)) := by
  have h : charPromptLine c = "[char: ".data ++ charBody c ++ [']'] := rfl
  rw [h, List.append_assoc, List.append_assoc]
  rfl

theorem charLines_ne_nil (c0 : CharacterEntry) (cs : List CharacterEntry) :
    List.intercalate ['\n'] ((c0 :: cs).map charPromptLine) ≠ [] := by
  cases cs with
  | nil =>
    rw [List.map_cons, List.map_nil, intercalate_single]
    have h := charPromptLine_append c0 []
    rw [List.append_nil] at h
    rw [h]
    simp
  | cons c1 cs' =>
    rw [List.map_cons, List.map_cons, intercalate_cons2]
    simp [List.append_eq_nil]

theorem extractAllTags_charLine_cons (c0 : CharacterEntry) (post : List Char)
    (hb : ']' ∉ charBody c0) (htr : jsTrim (charBody c0) = charBody c0) :
    extractAllTags "char".data (charPromptLine c0 ++ post) =
      charBody c0 :: extractAllTags "char".data post := by
  have hspace : (']' : Char) ∉ ' ' :: charBody c0 := by
    intro hm
    rcases List.mem_cons.mp hm with h1 | h1
    · exact absurd h1 (by decide)
    · exact hb h1
  rw [charPromptLine_append c0 post]
  rw [extractAllTags_here "char".data "char".data (' ' :: charBody c0) post
    (by decide) (by simp) hspace]
  rw [jsTrim_cons_space, htr]

theorem extractAllTags_charLines :
    ∀ (cs : List CharacterEntry),
      (∀ c ∈ cs, ']' ∉ charBody c ∧ jsTrim (charBody c) = charBody c) →
      extractAllTags "char".data (List.intercalate ['\n'] (cs.map charPromptLine)) =
        cs.map charBody := by
  intro cs
  induction cs with
  | nil => intro _; rfl
  | cons c0 cs ih =>
    intro h
    obtain ⟨hb, htr⟩ := h c0 (by simp)
    cases cs with
    | nil =>
      rw [List.map_cons, List.map_nil, intercalate_single]
      have h1 := extractAllTags_charLine_cons c0 [] hb htr
      rw [List.append_nil] at h1
      rw [h1]
      rfl
    | cons c1 cs' =>
      rw [List.map_cons, List.map_cons, intercalate_cons2]
      rw [extractAllTags_charLine_cons c0 _ hb htr]
      rw [List.singleton_append, extractAllTags_cons_nl]
      have ih' := ih (fun c hc => h c (by simp [hc]))
      rw [List.map_cons] at ih'
      rw [ih']
      simp [List.map_cons]

theorem currentStateBlock_shape (snap : Snapshot)
    (hT : snap.currentTime ≠ []) (hL : snap.currentLocation ≠ [])
    (hW : snap.currentWeather ≠ []) :
    currentStateBlock snap =
      '[' :: ("time".data ++ ':' :: ((' ' :: snap.currentTime) ++ ']' :: '\n' ::
        blockFromLoc snap)) := by
  have hbase : ∀ tail : List Char,
      List.intercalate ['\n']
        ["[time: ".data ++ jsOr snap.currentTime "unknown".data ++ [']'],
         "[location: ".data ++ jsOr snap.currentLocation "unknown".data ++ [']'],
         "[weather: ".data ++ jsOr snap.currentWeather "unknown".data ++ [']'],
         "[heart: ".data ++ intToStr snap.heartPoints ++ [']']] ++ tail =
      '[' :: ("time".data ++ ':' :: ((' ' :: snap.currentTime) ++ ']' :: '\n' ::
        ('[' :: ("location".data ++ ':' :: ((' ' :: snap.currentLocation) ++ ']' :: '\n' ::
        ('[' :: ("weather".data ++ ':' :: ((' ' :: snap.currentWeather) ++ ']' :: '\n' ::
        ('[' :: ("heart".data ++ ':' :: ((' ' :: intToStr snap.heartPoints) ++ ']' ::
          tail))))))))))) := by
    intro tail
    simp only [jsOr]
    rw [if_neg hT, if_neg hL, if_neg hW]
    rw [show List.intercalate ['\n']
        ["[time: ".data ++ snap.currentTime ++ [']'],
         "[location: ".data ++ snap.currentLocation ++ [']'],
         "[weather: ".data ++ snap.currentWeather ++ [']'],
         "[heart: ".data ++ intToStr snap.heartPoints ++ [']']] =
      ("[time: ".data ++ snap.currentTime ++ [']']) ++ ('\n' ::
        (("[location: ".data ++ snap.currentLocation ++ [']']) ++ ('\n' ::
        (("[weather: ".data ++ snap.currentWeather ++ [']']) ++ ('\n' ::
        (("[heart: ".data ++ intToStr snap.heartPoints ++ [']']) ++ [])))))) from rfl]
    simp only [List.append_assoc, List.cons_append, List.nil_append, List.append_nil]
  simp only [currentStateBlock]
  by_cases hc : List.intercalate ['\n'] (snap.currentCharacters.map charPromptLine) = []
  · rw [if_pos hc]
    have h1 := hbase []
    rw [List.append_nil] at h1
    rw [h1]
    unfold blockFromLoc blockFromWea blockFromHeart charTail
    rw [if_pos hc]
  · rw [if_neg hc]
    rw [hbase ('\n' :: List.intercalate ['\n'] (snap.currentCharacters.map charPromptLine))]
    unfold blockFromLoc blockFromWea blockFromHeart charTail
    rw [if_neg hc]

theorem filterMap_charBody (cs : List CharacterEntry)
    (h : ∀ c ∈ cs, mkCharEntry (charBody c) = some c) :
    (cs.map charBody).filterMap mkCharEntry = cs := by
  induction cs with
  | nil => rfl
  | cons c cs ih =>
    rw [List.map_cons, List.filterMap_cons]
    rw [h c (by simp)]
    rw [ih (fun d hd => h d (by simp [hd]))]

theorem block_extracts (snap : Snapshot) (h : CleanSnap snap) :
    extractTag "time".data (currentStateBlock snap) = some snap.currentTime ∧
    extractTag "location".data (currentStateBlock snap) = some snap.currentLocation ∧
    extractTag "weather".data (currentStateBlock snap) = some snap.currentWeather ∧
    extractTag "heart".data (currentStateBlock snap) = some (intToStr snap.heartPoints) ∧
    extractAllTags "char".data (currentStateBlock snap) =
      snap.currentCharacters.map charBody := by
  obtain ⟨⟨hTne, hTb1, hTb2, hTtr⟩, ⟨hLne, hLb1, hLb2, hLtr⟩,
    ⟨hWne, hWb1, hWb2, hWtr⟩, hcs⟩ := h
  obtain ⟨hHne, hHb1, hHb2, hHtr⟩ := intToStr_clean snap.heartPoints
  have hsh := currentStateBlock_shape snap hTne hLne hWne
  have hTsp : (']' : Char) ∉ ' ' :: snap.currentTime := by
    intro hm
    rcases List.mem_cons.mp hm with h1 | h1
    · exact absurd h1 (by decide)
    · exact hTb2 h1
  have hLsp : (']' : Char) ∉ ' ' :: snap.currentLocation := by
    intro hm
    rcases List.mem_cons.mp hm with h1 | h1
    · exact absurd h1 (by decide)
    · exact hLb2 h1
  have hWsp : (']' : Char) ∉ ' ' :: snap.currentWeather := by
    intro hm
    rcases List.mem_cons.mp hm with h1 | h1
    · exact absurd h1 (by decide)
    · exact hWb2 h1
  have hHsp : (']' : Char) ∉ ' ' :: intToStr snap.heartPoints := by
    intro hm
    rcases List.mem_cons.mp hm with h1 | h1
    · exact absurd h1 (by decide)
    · exact hHb2 h1
  have hTkey : ∀ x ∈ "ime: ".data, x ≠ '[' := by decide
  have hLkey : ∀ x ∈ "ocation: ".data, x ≠ '[' := by decide
  have hWkey : ∀ x ∈ "eather: ".data, x ≠ '[' := by decide
  refine ⟨?_, ?_, ?_, ?_, ?_⟩
  · rw [hsh]
    rw [extractTag_here "time".data "time".data (' ' :: snap.currentTime) _
      (by decide) (by simp) hTsp]
    rw [jsTrim_cons_space, hTtr]
  · rw [hsh]
    have h1 : extractTag "location".data
        ('[' :: ("time".data ++ ':' :: ((' ' :: snap.currentTime) ++ ']' :: '\n' ::
          blockFromLoc snap))) =
        extractTag "location".data ('\n' :: blockFromLoc snap) :=
      extractTag_skip_line 'l' "ocation".data 't' "ime: ".data snap.currentTime
        ('\n' :: blockFromLoc snap) (by decide) (by decide) hTkey hTb1
    rw [h1, extractTag_cons_nl]
    rw [show blockFromLoc snap =
      '[' :: ("location".data ++ ':' :: ((' ' :: snap.currentLocation) ++ ']' :: '\n' ::
        blockFromWea snap)) from rfl]
    rw [extractTag_here "location".data "location".data (' ' :: snap.currentLocation) _
      (by decide) (by simp) hLsp]
    rw [jsTrim_cons_space, hLtr]
  · rw [hsh]
    have h1 : extractTag "weather".data
        ('[' :: ("time".data ++ ':' :: ((' ' :: snap.currentTime) ++ ']' :: '\n' ::
          blockFromLoc snap))) =
        extractTag "weather".data ('\n' :: blockFromLoc snap) :=
      extractTag_skip_line 'w' "eather".data 't' "ime: ".data snap.currentTime
        ('\n' :: blockFromLoc snap) (by decide) (by decide) hTkey hTb1
    rw [h1, extractTag_cons_nl]
    have h2 : extractTag "weather".data (blockFromLoc snap) =
        extractTag "weather".data ('\n' :: blockFromWea snap) :=
      extractTag_skip_line 'w' "eather".data 'l' "ocation: ".data snap.currentLocation
        ('\n' :: blockFromWea snap) (by decide) (by decide) hLkey hLb1
    rw [h2, extractTag_cons_nl]
    rw [show blockFromWea snap =
      '[' :: ("weather".data ++ ':' :: ((' ' :: snap.currentWeather) ++ ']' :: '\n' ::
        blockFromHeart snap)) from rfl]
    rw [extractTag_here "weather".data "weather".data (' ' :: snap.currentWeather) _
      (by decide) (by simp) hWsp]
    rw [jsTrim_cons_space, hWtr]
  · rw [hsh]
    have h1 : extractTag "heart".data
        ('[' :: ("time".data ++ ':' :: ((' ' :: snap.currentTime) ++ ']' :: '\n' ::
          blockFromLoc snap))) =
        extractTag "heart".data ('\n' :: blockFromLoc snap) :=
      extractTag_skip_line 'h' "eart".data 't' "ime: ".data snap.currentTime
        ('\n' :: blockFromLoc snap) (by decide) (by decide) hTkey hTb1
    rw [h1, extractTag_cons_nl]
    have h2 : extractTag "heart".data (blockFromLoc snap) =
        extractTag "heart".data ('\n' :: blockFromWea snap) :=
      extractTag_skip_line 'h' "eart".data 'l' "ocation: ".data snap.currentLocation
        ('\n' :: blockFromWea snap) (by decide) (by decide) hLkey hLb1
    rw [h2, extractTag_cons_nl]
    have h3 : extractTag "heart".data (blockFromWea snap) =
        extractTag "heart".data ('\n' :: blockFromHeart snap) :=
      extractTag_skip_line 'h' "eart".data 'w' "eather: ".data snap.currentWeather
        ('\n' :: blockFromHeart snap) (by decide) (by decide) hWkey hWb1
    rw [h3, extractTag_cons_nl]
    rw [show blockFromHeart snap =
      '[' :: ("heart".data ++ ':' :: ((' ' :: intToStr snap.heartPoints) ++ ']' ::
        charTail snap.currentCharacters)) from rfl]
    rw [extractTag_here "heart".data "heart".data (' ' :: intToStr snap.heartPoints) _
      (by decide) (by simp) hHsp]
    rw [jsTrim_cons_space, hHtr]
  · rw [hsh]
    have h1 : extractAllTags "char".data
        ('[' :: ("time".data ++ ':' :: ((' ' :: snap.currentTime) ++ ']' :: '\n' ::
          blockFromLoc snap))) =
        extractAllTags "char".data ('\n' :: blockFromLoc snap) :=
      extractAllTags_skip_line 'c' "har".data 't' "ime: ".data snap.currentTime
        ('\n' :: blockFromLoc snap) (by decide) (by decide) hTkey hTb1
    rw [h1, extractAllTags_cons_nl]
    have h2 : extractAllTags "char".data (blockFromLoc snap) =
        extractAllTags "char".data ('\n' :: blockFromWea snap) :=
      extractAllTags_skip_line 'c' "har".data 'l' "ocation: ".data snap.currentLocation
        ('\n' :: blockFromWea snap) (by decide) (by decide) hLkey hLb1
    rw [h2, extractAllTags_cons_nl]
    have h3 : extractAllTags "char".data (blockFromWea snap) =
        extractAllTags "char".data ('\n' :: blockFromHeart snap) :=
      extractAllTags_skip_line 'c' "har".data 'w' "eather: ".data snap.currentWeather
        ('\n' :: blockFromHeart snap) (by decide) (by decide) hWkey hWb1
    rw [h3, extractAllTags_cons_nl]
    have h4 : extractAllTags "char".data (blockFromHeart snap) =
        extractAllTags "char".data (charTail snap.currentCharacters) :=
      extractAllTags_skip_line 'c' "har".data 'h' "eart: ".data (intToStr snap.heartPoints)
        (charTail snap.currentCharacters) (by decide) (by decide) (by decide) hHb1
    rw [h4]
    cases hcs0 : snap.currentCharacters with
    | nil =>
      rw [show charTail [] = [] from rfl]
      rfl
    | cons c0 cs' =>
      have hne := charLines_ne_nil c0 cs'
      rw [show charTail (c0 :: cs') =
        '\n' :: List.intercalate ['\n'] ((c0 :: cs').map charPromptLine) from by
          unfold charTail
          rw [if_neg hne]]
      rw [extractAllTags_cons_nl]
      refine extractAllTags_charLines (c0 :: cs') (fun c hc => ?_)
      have hcc : CleanEntry c := hcs c (by rw [hcs0]; exact hc)
      exact ⟨charBody_no_close c hcc, (charBody_trim c hcc).1⟩

/-- C8 (amended): round-trip between emission and parsing holds for
tag-safe snapshots: when every scalar field is non-empty, bracket-free
and trimmed, and every character entry has a non-empty colon-free and
pipe-free name and bracket-free, pipe-free, trimmed fields, re-extracting
the rendered current-state block yields exactly the snapshot's fields
(heart as its decimal rendering).  Without these conditions the
round-trip fails: an empty field renders as `unknown` and re-parses as
the string `unknown`, and bracket characters break the tag regexes. -/
theorem c8_prompt_roundtrip :
    ∀ snap : Snapshot, CleanSnap snap →
      parseTags (currentStateBlock snap) = snapToTagSet snap := by
  intro snap h
  obtain ⟨ht1, ht2, ht3, ht4, ht5⟩ := block_extracts snap h
  obtain ⟨_, _, _, hcs⟩ := h
  have ht6 : (extractAllTags "char".data (currentStateBlock snap)).filterMap mkCharEntry =
      snap.currentCharacters := by
    rw [ht5]
    exact filterMap_charBody snap.currentCharacters
      (fun c hc => mkCharEntry_roundtrip c (hcs c hc))
  simp [parseTags, snapToTagSet, ht1, ht2, ht3, ht4, ht6]

/-- C8 counterexample: a snapshot with an empty time field renders as
`[time: unknown]`, which re-parses to the literal string `unknown`
rather than to the snapshot's empty field, so the claim's unconditional
round-trip fails. -/
theorem c8_counterexample :
    parseTags (currentStateBlock ⟨[], "Docks".data, "Sunny".data, 0, []⟩) ≠
      snapToTagSet ⟨[], "Docks".data, "Sunny".data, 0, []⟩ ∧
    (parseTags (currentStateBlock ⟨[], "Docks".data, "Sunny".data, 0, []⟩)).time =
      some "unknown".data ∧
    (snapToTagSet ⟨[], "Docks".data, "Sunny".data, 0, []⟩).time = some [] :=
  ⟨by decide, by decide, by decide⟩

/-- C8 witness: a concrete tag-safe snapshot with one character entry
round-trips through the rendered block. -/
theorem c8_witness :
    CleanSnap ⟨"3:00 PM".data, "Docks".data, "Sunny".data, 75000,
      [⟨"Alice".data, "red dress".data, [], "by the door".data⟩]⟩ ∧
    parseTags (currentStateBlock ⟨"3:00 PM".data, "Docks".data, "Sunny".data, 75000,
        [⟨"Alice".data, "red dress".data, [], "by the door".data⟩]⟩) =
      snapToTagSet ⟨"3:00 PM".data, "Docks".data, "Sunny".data, 75000,
        [⟨"Alice".data, "red dress".data, [], "by the door".data⟩]⟩ :=
  ⟨by decide,
   c8_prompt_roundtrip
     ⟨"3:00 PM".data, "Docks".data, "Sunny".data, 75000,
       [⟨"Alice".data, "red dress".data, [], "by the door".data⟩]⟩ (by decide)⟩

end PTTracker
